import Mathlib

/-!
Verification development for the finance-assistant backend.

The definitions below are shallow embeddings of the Python sources:

* `server/routers/agent.py` — the streaming invocation bridge and the
  trace-event extractor inside `invoke_endpoint.stream_and_store`, plus
  `_parse_json_field`;
* `server/services/agents/handlers/databricks_endpoint.py` — the
  sync-producer/async-consumer bridge `predict_stream`;
* `server/services/chat/memory.py` and `server/services/chat/postgres.py` —
  the two session storage backends;
* `server/services/agents/agent_bricks_service.py` — the TTL metadata cache
  with single-flight background refresh.

Decoded JSON values are modelled by the `Json` inductive.  Python `dict.get`
on a non-mapping value (which would raise at runtime) is modelled as an
absent key; Python truthiness is modelled by `Json.truthy`.  `datetime.now()`
and `time.time()` are modelled as `Nat` parameters supplied by the caller,
and generated uuids are modelled as explicit id parameters.
-/

/-- Decoded JSON value, the payload type of every streamed event.  Objects
keep their key order (Python dicts preserve insertion order) and lookups
return the first binding of a key. -/
inductive Json where
  | null
  | bool (b : Bool)
  | num (n : Int)
  | str (s : String)
  | arr (elems : List Json)
  | obj (entries : List (String × Json))
deriving Repr, Inhabited

mutual

/-- Structural equality of JSON values, the embedding of Python `==` on
decoded JSON data. -/
def Json.beq : Json → Json → Bool
  | .null, .null => true
  | .bool a, .bool b => a == b
  | .num a, .num b => a == b
  | .str a, .str b => a == b
  | .arr xs, .arr ys => Json.beqList xs ys
  | .obj xs, .obj ys => Json.beqEntries xs ys
  | _, _ => false

/-- Elementwise equality of JSON arrays. -/
def Json.beqList : List Json → List Json → Bool
  | [], [] => true
  | x :: xs, y :: ys => Json.beq x y && Json.beqList xs ys
  | _, _ => false

/-- Entrywise equality of JSON objects. -/
def Json.beqEntries : List (String × Json) → List (String × Json) → Bool
  | [], [] => true
  | (k, x) :: xs, (l, y) :: ys => k == l && Json.beq x y && Json.beqEntries xs ys
  | _, _ => false

end

instance : BEq Json := ⟨Json.beq⟩

/-- Embedding of Python `event.get(key)`: first binding of `key` when the
value is a mapping, absent otherwise. -/
def Json.get : Json → String → Option Json
  | .obj entries, k => entries.lookup k
  | _, _ => none

/-- Embedding of Python `event.get(key, default)`. -/
def Json.getD (j : Json) (k : String) (d : Json) : Json :=
  (j.get k).getD d

/-- Python truthiness of a decoded JSON value (`if value:`). -/
def Json.truthy : Json → Bool
  | .null => false
  | .bool b => b
  | .num n => n != 0
  | .str s => s != ""
  | .arr xs => !xs.isEmpty
  | .obj xs => !xs.isEmpty

/-- Underlying element list of a JSON array; iteration over a non-list is
modelled as the empty iteration. -/
def Json.asArr : Json → List Json
  | .arr xs => xs
  | _ => []

/-- Embedding of `_parse_json_field` in `server/routers/agent.py`: a string
whose stripped form starts with a brace or bracket is passed to `json.loads`
(the `loads` parameter, an uninterpreted stand-in for the Python standard
library decoder), falling back to the raw string when decoding fails; every
other value is returned unchanged. -/
def parseJsonField (loads : String → Option Json) : Json → Json
  | .str s =>
      let trimmed := s.trim
      if trimmed.startsWith "\x7b" || trimmed.startsWith "[" then
        match loads s with
        | some j => j
        | none => .str s
      else .str s
  | v => v

/-- One collected function call of the extractor: the dict appended to
`function_calls` in `stream_and_store`.  The `output` key is absent until a
matching `function_call_output` item arrives. -/
structure FunctionCallRec where
  call_id : Json
  name : Json
  arguments : Json
  output : Option Json
deriving Repr

/-- Accumulator of the trace-event extractor inside `stream_and_store`:
`final_text`, `function_calls`, `trace_id` and `databricks_output`. -/
structure ExtractState where
  final_text : Json
  function_calls : List FunctionCallRec
  trace_id : Option Json
  databricks_output : Option Json
deriving Repr

/-- Initial accumulator of `stream_and_store` (empty text, no calls, no
trace). -/
def initExtractState : ExtractState :=
  { final_text := .str "", function_calls := [], trace_id := none, databricks_output := none }

/-- Embedding of one `databricks_output` check in `stream_and_store`: when
the candidate object is truthy and no trace id is latched yet, remember the
object and latch `trace.info.trace_id` when that value is truthy. -/
def latchTrace (st : ExtractState) (dbOut : Json) : ExtractState :=
  if dbOut.truthy && st.trace_id.isNone then
    let st1 := { st with databricks_output := some dbOut }
    let traceInfo := (dbOut.getD "trace" (.obj [])).getD "info" (.obj [])
    match traceInfo.get "trace_id" with
    | some tid => if tid.truthy then { st1 with trace_id := some tid } else st1
    | none => st1
  else st

/-- First content block of type `output_text` of a message item, yielding its
`text` field (default empty string), as in the extractor's message branch. -/
def firstOutputText (contentList : List Json) : Option Json :=
  match contentList.find? (fun ci => ci.getD "type" .null == Json.str "output_text") with
  | some ci => some (ci.getD "text" (.str ""))
  | none => none

/-- Attach `output` to the first recorded function call whose `call_id`
equals the given one, as in the extractor's `function_call_output` branch;
with no match the list is returned unchanged. -/
def setFirstOutput : List FunctionCallRec → Json → Json → List FunctionCallRec
  | [], _, _ => []
  | fc :: rest, cid, out =>
      if fc.call_id == cid then { fc with output := some out } :: rest
      else fc :: setFirstOutput rest cid out

/-- Embedding of the item dispatch of `stream_and_store` (lines 182–208 of
`server/routers/agent.py`): a `message` item overwrites the final text with
its first `output_text` block, a `function_call` item appends a new record,
and a `function_call_output` item attaches its output to the first recorded
call with the same call id. -/
def processItem (loads : String → Option Json) (st1 : ExtractState) (item : Json) :
    ExtractState :=
  let itemType := item.getD "type" (.str "")
  if itemType == Json.str "message" then
    match firstOutputText (item.getD "content" (.arr [])).asArr with
    | some text => { st1 with final_text := text }
    | none => st1
  else if itemType == Json.str "function_call" then
    { st1 with function_calls := st1.function_calls ++
        [{ call_id := item.getD "call_id" (.str ""),
           name := item.getD "name" (.str ""),
           arguments := parseJsonField loads (item.getD "arguments" (.obj [])),
           output := none }] }
  else if itemType == Json.str "function_call_output" then
    let cid := item.getD "call_id" (.str "")
    let out := parseJsonField loads (item.getD "output" (.obj []))
    { st1 with function_calls := setFirstOutput st1.function_calls cid out }
  else st1

/-- Embedding of the per-event body of `stream_and_store`, continued: the
event-level `databricks_output` check, the `response.output_item.done` item
dispatch followed by the item-level `databricks_output` check, and the
`response.done` response-level check. -/
def processEvent (loads : String → Option Json) (st : ExtractState) (event : Json) :
    ExtractState :=
  let eventType := event.getD "type" (.str "")
  let st1 := latchTrace st (event.getD "databricks_output" (.obj []))
  if eventType == Json.str "response.output_item.done" then
    let item := event.getD "item" (.obj [])
    latchTrace (processItem loads st1 item) (item.getD "databricks_output" (.obj []))
  else if eventType == Json.str "response.done" then
    latchTrace st1 ((event.getD "response" (.obj [])).getD "databricks_output" (.obj []))
  else st1

/-- Fold of the extractor over a decoded event sequence, starting from the
initial accumulator of `stream_and_store`. -/
def extractEvents (loads : String → Option Json) (events : List Json) : ExtractState :=
  events.foldl (processEvent loads) initExtractState

/-- Trace id a single `databricks_output` candidate object would latch:
`trace.info.trace_id` when the object and that value are truthy. -/
def dbTraceCandidate (dbOut : Json) : Option Json :=
  if dbOut.truthy then
    match ((dbOut.getD "trace" (.obj [])).getD "info" (.obj [])).get "trace_id" with
    | some tid => if tid.truthy then some tid else none
    | none => none
  else none

/-- Trace-id candidates of one event, in the order the extractor checks its
three recognized nesting locations: event level, then item level for
`response.output_item.done` events, then response level for `response.done`
events. -/
def eventTraceCandidates (event : Json) : List Json :=
  (dbTraceCandidate (event.getD "databricks_output" (.obj []))).toList
    ++ (if event.getD "type" (.str "") == Json.str "response.output_item.done" then
          (dbTraceCandidate ((event.getD "item" (.obj [])).getD "databricks_output"
            (.obj []))).toList
        else [])
    ++ (if event.getD "type" (.str "") == Json.str "response.done" then
          (dbTraceCandidate ((event.getD "response" (.obj [])).getD "databricks_output"
            (.obj []))).toList
        else [])

/-- First trace id occurring in an event sequence, in stream order and, inside
one event, in the order the extractor checks the three locations. -/
def firstTraceId (events : List Json) : Option Json :=
  (events.map eventTraceCandidates).flatten.head?

/-- One server-sent-events frame: a `data: <json>` frame or the terminal
`data: [DONE]` sentinel. -/
inductive Frame where
  | data (payload : Json)
  | done
deriving Repr

/-- The `chat.created` frame payload emitted first by `stream_and_store`. -/
def mkChatCreatedEvent (chat_id : String) : Json :=
  .obj [("type", .str "chat.created"), ("chat_id", .str chat_id)]

/-- The error frame payload emitted when the producer raised, as built both in
`predict_stream` and in the outer handler of `stream_and_store`. -/
def mkErrorEvent (e : String) : Json :=
  .obj [("type", .str "error"), ("error", .str e)]

/-- A frame whose payload carries `type: error`. -/
def isErrorFrame : Frame → Bool
  | .data j => j.getD "type" .null == Json.str "error"
  | .done => false

/-- Embedding of `DatabricksEndpointHandler.predict_stream`
(`server/services/agents/handlers/databricks_endpoint.py`).  The blocking
producer's outcome is the list of chunks it yielded before finishing plus,
when it raised, the error text: the worker thread queues one `chunk` item
per produced chunk and then either the `done` sentinel or an `error`
sentinel, and the async consumer re-emits them in order as frames.  The
generator is a total function of the producer outcome: no producer error
escapes as an exception. -/
def predictStreamFrames (chunks : List Json) (err : Option String) : List Frame :=
  chunks.map Frame.data ++
    match err with
    | some e => [Frame.data (mkErrorEvent e), Frame.done]
    | none => [Frame.done]

/-- Decoded payloads of the data frames `stream_and_store` feeds to its
extractor loop: the forwarded chunks and, on producer failure, the emitted
error frame (the `[DONE]` sentinel is skipped by the `data_str == '[DONE]'`
guard). -/
def streamedEvents (chunks : List Json) (err : Option String) : List Json :=
  chunks ++
    match err with
    | some e => [mkErrorEvent e]
    | none => []

/-- Frames `stream_and_store` delivers to the HTTP caller: the `chat.created`
frame for the resolved session, then everything the handler stream yields. -/
def streamAndStoreFrames (chat_id : String) (chunks : List Json) (err : Option String) :
    List Frame :=
  Frame.data (mkChatCreatedEvent chat_id) :: predictStreamFrames chunks err

/-- One `MessageModel` row persisted by `stream_and_store` after the stream
ends. -/
structure StoredMessage where
  id : String
  role : String
  content : Json
  timestamp : Nat
  trace_id : Option Json
  trace_summary : Option Json
deriving Repr

/-- JSON value of an optional field (Python `None` encodes as `null`). -/
def optionJson (o : Option Json) : Json :=
  o.getD .null

/-- One entry of `tools_called` in the trace summary built by
`stream_and_store`. -/
def toolCalledJson (fc : FunctionCallRec) : Json :=
  .obj [("name", fc.name), ("duration_ms", .num 0), ("inputs", fc.arguments),
        ("outputs", optionJson fc.output),
        ("status", .str (match fc.output with
          | some o => if o.truthy then "OK" else "UNKNOWN"
          | none => "UNKNOWN"))]

/-- One collected function-call dict as stored in the trace summary (the
`output` key is present only when it was attached). -/
def functionCallJson (fc : FunctionCallRec) : Json :=
  .obj ([("call_id", fc.call_id), ("name", fc.name), ("arguments", fc.arguments)] ++
    match fc.output with
    | some o => [("output", o)]
    | none => [])

/-- The trace summary dict built by `stream_and_store` when any function call
or trace id was collected. -/
def traceSummaryJson (st : ExtractState) : Json :=
  .obj [("trace_id", optionJson st.trace_id), ("duration_ms", .num 0), ("status", .str "OK"),
        ("tools_called", .arr (st.function_calls.map toolCalledJson)),
        ("retrieval_calls", .arr []), ("llm_calls", .arr []), ("total_tokens", .num 0),
        ("spans_count", .num (Int.ofNat st.function_calls.length)),
        ("function_calls", .arr (st.function_calls.map functionCallJson)),
        ("databricks_output", optionJson st.databricks_output)]

/-- Embedding of the user-turn persistence block of `stream_and_store`
(`server/routers/agent.py`, lines 244–253): when the request's input message
list is non-empty, one message built from its last element is stored, with
the role defaulting to `user` and the content to the empty string. -/
def userMessageFromInput (messages : List (List (String × String))) (mid : String)
    (now : Nat) : List StoredMessage :=
  match messages.getLast? with
  | some lastMsg =>
      [{ id := mid, role := (lastMsg.lookup "role").getD "user",
         content := .str ((lastMsg.lookup "content").getD ""), timestamp := now,
         trace_id := none, trace_summary := none }]
  | none => []

/-- Embedding of the assistant-turn persistence block of `stream_and_store`
(lines 255–292): an assistant message carrying the extracted text, trace id
and trace summary is stored only when final text or function calls were
collected. -/
def assistantMessagesFromStream (st : ExtractState) (mid : String) (now : Nat) :
    List StoredMessage :=
  let traceSummary :=
    if !st.function_calls.isEmpty || (optionJson st.trace_id).truthy then
      some (traceSummaryJson st)
    else none
  if st.final_text.truthy || !st.function_calls.isEmpty then
    [{ id := mid, role := "assistant", content := st.final_text, timestamp := now,
       trace_id := st.trace_id, trace_summary := traceSummary }]
  else []

/-- Messages `stream_and_store` persists after the stream ends: the user turn
derived from the input list, then the assistant turn derived from the
extractor state over the streamed events. -/
def storedMessages (loads : String → Option Json) (messages : List (List (String × String)))
    (chunks : List Json) (err : Option String) (umid amid : String) (unow anow : Nat) :
    List StoredMessage :=
  let st := extractEvents loads (streamedEvents chunks err)
  userMessageFromInput messages umid unow ++ assistantMessagesFromStream st amid anow

/-- Complete observable outcome of one `stream_and_store` execution: the frame
stream delivered to the caller and the messages persisted afterwards. -/
def streamAndStoreRun (loads : String → Option Json) (chat_id : String)
    (messages : List (List (String × String))) (chunks : List Json) (err : Option String)
    (umid amid : String) (unow anow : Nat) : List Frame × List StoredMessage :=
  (streamAndStoreFrames chat_id chunks err,
   storedMessages loads messages chunks err umid amid unow anow)

/-- One chat message as stored by the session backends (`MessageModel` in
`server/db/models.py`); timestamps are modelled as `Nat`. -/
structure MessageModel where
  id : String
  chat_id : String
  role : String
  content : String
  timestamp : Nat
  trace_id : Option Json
  trace_summary : Option Json
deriving Repr

/-- One chat session as stored by the in-memory backend (`ChatModel` with its
detached `messages` list). -/
structure ChatModel where
  id : String
  user_email : String
  title : String
  agent_id : Option String
  created_at : Nat
  updated_at : Nat
  messages : List MessageModel
deriving Repr

/-- Embedding of the auto-title expression
`msg.content[:50] + ('...' if len(msg.content) > 50 else '')`; Python slicing
and `len` count code points, modelled on the character list of the string. -/
def truncTitle (content : String) : String :=
  String.mk (content.data.take 50) ++ (if 50 < content.data.length then "..." else "")

/-- First element of a list minimizing `f`, the embedding of Python
`min(..., key=...)` (which keeps the earliest minimum) and of
`ORDER BY updated_at ASC LIMIT 1` (ties resolved to the first row of the
modelled row order). -/
def firstMinBy {α : Type _} (f : α → Nat) : List α → Option α
  | [] => none
  | x :: xs => some (xs.foldl (fun best d => if f d < f best then d else best) x)

/-- State of `MemoryChatStorage` (`server/services/chat/memory.py`): the chats
dict of one user, as an insertion-ordered list of sessions. -/
structure MemoryChatStorage where
  user_email : String
  chats : List ChatModel
  max_chats : Nat
deriving Repr

/-- Python dict insertion `self.chats[chat_id] = new_chat`: replace the entry
with that id in place when it exists, append otherwise. -/
def dictInsert : List ChatModel → ChatModel → List ChatModel
  | [], c => [c]
  | d :: rest, c => if d.id == c.id then c :: rest else d :: dictInsert rest c

/-- The detached `ChatModel` built by `MemoryChatStorage.create` (fresh id
and timestamps supplied by the caller). -/
def memNewChat (user_email chat_id : String) (now : Nat) (title : String)
    (agent_id : Option String) : ChatModel :=
  { id := chat_id, user_email := user_email, title := title, agent_id := agent_id,
    created_at := now, updated_at := now, messages := [] }

/-- Embedding of `MemoryChatStorage.create`, continued: evict when full, then
insert the new chat. -/
def MemoryChatStorage.create (s : MemoryChatStorage) (chat_id : String) (now : Nat)
    (title : String) (agent_id : Option String) : MemoryChatStorage × ChatModel :=
  let s1 :=
    if s.max_chats ≤ s.chats.length then
      match firstMinBy (fun c => c.updated_at) s.chats with
      | some oldest => { s with chats := s.chats.filter (fun c => !(c.id == oldest.id)) }
      | none => s
    else s
  let newChat := memNewChat s.user_email chat_id now title agent_id
  ({ s1 with chats := dictInsert s1.chats newChat }, newChat)

/-- Embedding of `MemoryChatStorage.add_message`: append the message to the
addressed chat, bump `updated_at`, and derive the title from the first user
message. -/
def MemoryChatStorage.add_message (s : MemoryChatStorage) (chat_id : String)
    (msg : MessageModel) (now : Nat) : MemoryChatStorage × Bool :=
  if s.chats.any (fun c => c.id == chat_id) then
    let upd := fun (c : ChatModel) =>
      if c.id == chat_id then
        let msgs := c.messages ++ [{ msg with chat_id := chat_id }]
        let c1 := { c with messages := msgs, updated_at := now }
        if msgs.length == 1 && msg.role == "user" then
          { c1 with title := truncTitle msg.content }
        else c1
      else c
    ({ s with chats := s.chats.map upd }, true)
  else (s, false)

/-- Embedding of `MemoryChatStorage.update_title`. -/
def MemoryChatStorage.update_title (s : MemoryChatStorage) (chat_id title : String)
    (now : Nat) : MemoryChatStorage × Bool :=
  if s.chats.any (fun c => c.id == chat_id) then
    ({ s with chats := s.chats.map (fun c =>
        if c.id == chat_id then { c with title := title, updated_at := now } else c) }, true)
  else (s, false)

/-- Embedding of `MemoryChatStorage.delete`. -/
def MemoryChatStorage.delete (s : MemoryChatStorage) (chat_id : String) :
    MemoryChatStorage × Bool :=
  if s.chats.any (fun c => c.id == chat_id) then
    ({ s with chats := s.chats.filter (fun c => !(c.id == chat_id)) }, true)
  else (s, false)

/-- Embedding of `MemoryChatStorage.clear_all`. -/
def MemoryChatStorage.clear_all (s : MemoryChatStorage) : MemoryChatStorage × Nat :=
  ({ s with chats := [] }, s.chats.length)

/-- States of one user's in-memory storage reachable from the empty store by
the public operations (uuid chat ids and wall-clock times are arbitrary
parameters). -/
inductive MemReachable (email : String) (maxc : Nat) : MemoryChatStorage → Prop
  | init : MemReachable email maxc { user_email := email, chats := [], max_chats := maxc }
  | create (s : MemoryChatStorage) (cid : String) (now : Nat) (title : String)
      (aid : Option String) : MemReachable email maxc s →
      MemReachable email maxc (s.create cid now title aid).1
  | add_message (s : MemoryChatStorage) (cid : String) (msg : MessageModel) (now : Nat) :
      MemReachable email maxc s → MemReachable email maxc (s.add_message cid msg now).1
  | update_title (s : MemoryChatStorage) (cid title : String) (now : Nat) :
      MemReachable email maxc s → MemReachable email maxc (s.update_title cid title now).1
  | delete (s : MemoryChatStorage) (cid : String) :
      MemReachable email maxc s → MemReachable email maxc (s.delete cid).1
  | clear_all (s : MemoryChatStorage) :
      MemReachable email maxc s → MemReachable email maxc s.clear_all.1

/-- One row of the `chats` table (`server/db/models.py`). -/
structure ChatRow where
  id : String
  user_email : String
  title : String
  agent_id : Option String
  created_at : Nat
  updated_at : Nat
deriving Repr

/-- One row of the `messages` table. -/
structure MessageRow where
  id : String
  chat_id : String
  role : String
  content : String
  timestamp : Nat
  trace_id : Option Json
  trace_summary : Option Json
deriving Repr

/-- The PostgreSQL database state seen by `PostgresChatStorage`. -/
structure PgDatabase where
  chats : List ChatRow
  messages : List MessageRow
deriving Repr

/-- Rows of the `chats` table owned by one user (the
`ChatModel.user_email == self.user_email` predicate). -/
def pgUserChats (db : PgDatabase) (email : String) : List ChatRow :=
  db.chats.filter (fun c => c.user_email == email)

/-- The `chats` row built by `PostgresChatStorage.create`. -/
def pgNewRow (email cid : String) (now : Nat) (title : String) (aid : Option String) :
    ChatRow :=
  { id := cid, user_email := email, title := title, agent_id := aid,
    created_at := now, updated_at := now }

/-- Embedding of `PostgresChatStorage.create` (one transaction): count the
owner's chats, delete the oldest by `updated_at` (and, by the cascade on the
foreign key, its messages) when the count has reached `max_chats`, then
insert the new row. -/
def pgCreate (db : PgDatabase) (email : String) (maxc : Nat) (cid : String) (now : Nat)
    (title : String) (aid : Option String) : PgDatabase × ChatRow :=
  let db1 :=
    if maxc ≤ (pgUserChats db email).length then
      match firstMinBy (fun c => c.updated_at) (pgUserChats db email) with
      | some oldest =>
          { chats := db.chats.filter (fun c => !(c.id == oldest.id)),
            messages := db.messages.filter (fun m => !(m.chat_id == oldest.id)) }
      | none => db
    else db
  let row := pgNewRow email cid now title aid
  ({ db1 with chats := db1.chats ++ [row] }, row)

/-- Embedding of `PostgresChatStorage.add_message` (one transaction with
`autoflush=False`): the committed message count for the chat is taken before
the pending insert, so the auto-title fires exactly when the chat had no
stored messages yet and the new message's role is `user`. -/
def pgAddMessage (db : PgDatabase) (email cid : String) (msg : MessageRow) (now : Nat) :
    PgDatabase × Bool :=
  match (db.chats.filter (fun c => c.id == cid && c.user_email == email)).head? with
  | none => (db, false)
  | some chat =>
      let msgCount := (db.messages.filter (fun m => m.chat_id == cid)).length
      let newTitle :=
        if msgCount == 0 && msg.role == "user" then truncTitle msg.content else chat.title
      ({ chats := db.chats.map (fun c =>
            if c.id == chat.id && c.user_email == email then
              { c with updated_at := now, title := newTitle }
            else c),
         messages := db.messages ++ [{ msg with chat_id := cid }] }, true)

/-- Embedding of `PostgresChatStorage.update_title`. -/
def pgUpdateTitle (db : PgDatabase) (email cid title : String) (now : Nat) :
    PgDatabase × Bool :=
  match (db.chats.filter (fun c => c.id == cid && c.user_email == email)).head? with
  | none => (db, false)
  | some chat =>
      ({ db with chats := db.chats.map (fun c =>
          if c.id == chat.id && c.user_email == email then
            { c with title := title, updated_at := now }
          else c) }, true)

/-- Embedding of `PostgresChatStorage.delete` (with the message cascade). -/
def pgDelete (db : PgDatabase) (email cid : String) : PgDatabase × Bool :=
  if db.chats.any (fun c => c.id == cid && c.user_email == email) then
    ({ chats := db.chats.filter (fun c => !(c.id == cid && c.user_email == email)),
       messages := db.messages.filter (fun m => !(m.chat_id == cid)) }, true)
  else (db, false)

/-- Embedding of `PostgresChatStorage.clear_all` (with the message cascade). -/
def pgClearAll (db : PgDatabase) (email : String) : PgDatabase × Nat :=
  ({ chats := db.chats.filter (fun c => !(c.user_email == email)),
     messages := db.messages.filter (fun m =>
       !(db.chats.any (fun c => c.id == m.chat_id && c.user_email == email))) },
   (pgUserChats db email).length)

/-- Database states reachable from the empty database by the storage
operations of arbitrary users sharing one `max_chats` bound; insertion of a
chat id already present would violate the primary key, so `create` steps
carry freshness of the id. -/
inductive PgReachable (maxc : Nat) : PgDatabase → Prop
  | init : PgReachable maxc { chats := [], messages := [] }
  | create (db : PgDatabase) (email cid : String) (now : Nat) (title : String)
      (aid : Option String) : PgReachable maxc db → (∀ c ∈ db.chats, c.id ≠ cid) →
      PgReachable maxc (pgCreate db email maxc cid now title aid).1
  | add_message (db : PgDatabase) (email cid : String) (msg : MessageRow) (now : Nat) :
      PgReachable maxc db → PgReachable maxc (pgAddMessage db email cid msg now).1
  | update_title (db : PgDatabase) (email cid title : String) (now : Nat) :
      PgReachable maxc db → PgReachable maxc (pgUpdateTitle db email cid title now).1
  | delete (db : PgDatabase) (email cid : String) :
      PgReachable maxc db → PgReachable maxc (pgDelete db email cid).1
  | clear_all (db : PgDatabase) (email : String) :
      PgReachable maxc db → PgReachable maxc (pgClearAll db email).1

/-- One entry of the agent-details cache (`CacheEntry` in
`server/services/agents/agent_bricks_service.py`): payload, fetch time, and
the in-flight-refresh flag. -/
structure CacheEntry where
  data : Json
  timestamp : Nat
  refreshing : Bool
deriving Repr

/-- Cache TTL in seconds (`CACHE_TTL_SECONDS`). -/
def CACHE_TTL_SECONDS : Nat := 300

/-- State of `AgentBricksService`: the `_agent_cache` dict plus two ghost
counters observing the environment — how many background refresh threads and
how many cold synchronous fetches are currently running per key.  Every
transition below is one lock-protected critical section of the source (or an
atomic thread-completion step), so interleavings of concurrent callers are
exactly the sequences of these transitions. -/
structure CacheState where
  entries : List (String × CacheEntry)
  inflight : String → Nat
  pendingCold : String → Nat

/-- Python dict insertion for the cache map: replace the binding of the key
in place when it exists, append otherwise. -/
def entriesInsert : List (String × CacheEntry) → String → CacheEntry →
    List (String × CacheEntry)
  | [], key, e => [(key, e)]
  | kv :: rest, key, e =>
      if kv.1 == key then (key, e) :: rest else kv :: entriesInsert rest key e

/-- Embedding of `AgentBricksService._get_from_cache` (one lock-protected
section): a missing key returns nothing; a fresh entry (age < TTL, with the
truncated-subtraction age matching Python's signed age test) returns its
payload; a stale entry returns its stale payload immediately and, when no
refresh is in flight for the key, marks the key refreshing and starts one
background refresh (ghost counter bump). -/
def getFromCache (st : CacheState) (key : String) (now : Nat) : Option Json × CacheState :=
  match st.entries.lookup key with
  | none => (none, st)
  | some entry =>
      if now - entry.timestamp < CACHE_TTL_SECONDS then
        (some entry.data, st)
      else if entry.refreshing then
        (some entry.data, st)
      else
        (some entry.data,
         { st with
             entries := entriesInsert st.entries key { entry with refreshing := true },
             inflight := fun k => if k == key then st.inflight k + 1 else st.inflight k })

/-- Embedding of `AgentBricksService._set_cache`: store payload with the
current time and a cleared refreshing flag. -/
def setCache (st : CacheState) (key : String) (data : Json) (now : Nat) : CacheState :=
  { st with entries :=
      entriesInsert st.entries key { data := data, timestamp := now, refreshing := false } }

/-- Embedding of the failure handler of `_trigger_background_refresh`: clear
only the refreshing flag of the entry, when one exists. -/
def clearRefreshing (st : CacheState) (key : String) : CacheState :=
  match st.entries.lookup key with
  | some entry =>
      { st with entries := entriesInsert st.entries key { entry with refreshing := false } }
  | none => st

/-- Atomic transitions of the cache system: a caller's cache lookup, a
background refresh thread finishing (successfully or not), and a cold
synchronous fetch starting (only possible after a miss) or finishing. -/
inductive CacheEvent where
  | lookup (key : String) (now : Nat)
  | refreshOk (key : String) (data : Json) (now : Nat)
  | refreshFail (key : String)
  | coldBegin (key : String)
  | coldDone (key : String) (data : Json) (now : Nat)

/-- Decrement a ghost counter at one key. -/
def decrAt (f : String → Nat) (key : String) : String → Nat :=
  fun k => if k == key then f k - 1 else f k

/-- Step function of the cache system.  Completion events of threads that are
not running are no-ops (such transitions cannot occur). -/
def cacheStep (st : CacheState) : CacheEvent → CacheState
  | .lookup key now => (getFromCache st key now).2
  | .refreshOk key data now =>
      if st.inflight key = 0 then st
      else setCache { st with inflight := decrAt st.inflight key } key data now
  | .refreshFail key =>
      if st.inflight key = 0 then st
      else clearRefreshing { st with inflight := decrAt st.inflight key } key
  | .coldBegin key =>
      if (st.entries.lookup key).isNone then
        { st with pendingCold := fun k => if k == key then st.pendingCold k + 1 else st.pendingCold k }
      else st
  | .coldDone key data now =>
      if st.pendingCold key = 0 then st
      else setCache { st with pendingCold := decrAt st.pendingCold key } key data now

/-- Run of the cache system over a list of transitions. -/
def cacheRun (st : CacheState) (evs : List CacheEvent) : CacheState :=
  evs.foldl cacheStep st

/-- Well-formedness of the cache state at one key that has an entry (the
situation of a populated, possibly stale key): no cold fetch is pending for
it and the number of running background refreshes equals the stored
refreshing flag. -/
def CacheKeyWF (st : CacheState) (key : String) : Prop :=
  st.pendingCold key = 0 ∧
  ∃ e, st.entries.lookup key = some e ∧
    st.inflight key = (if e.refreshing then 1 else 0)

/-- Embedding of `async_get_agent_details_from_endpoint` as one call: on a
cache answer return it with no fetch; on a miss perform the synchronous fetch
(whose result is the `fetched` parameter), populate the cache and return it.
The third component counts invocations of the underlying fetch function
during the call. -/
def asyncGetAgentDetails (st : CacheState) (key : String) (now : Nat) (fetched : Json) :
    Json × CacheState × Nat :=
  match getFromCache st key now with
  | (some cached, st1) => (cached, st1, 0)
  | (none, st1) => (fetched, setCache st1 key fetched now, 1)

/-- A `response.output_item.done` event carrying a `function_call` item, in
the wire shape the extractor recognizes. -/
def mkFunctionCallEvent (cid nm args : Json) : Json :=
  .obj [("type", .str "response.output_item.done"),
        ("item", .obj [("type", .str "function_call"), ("call_id", cid), ("name", nm),
          ("arguments", args)])]

/-- A `response.output_item.done` event carrying a `function_call_output`
item. -/
def mkFunctionCallOutputEvent (cid out : Json) : Json :=
  .obj [("type", .str "response.output_item.done"),
        ("item", .obj [("type", .str "function_call_output"), ("call_id", cid),
          ("output", out)])]

/-- Sample message used by concrete instances. -/
def sampleMsg : MessageModel := ⟨"m1", "", "user", "hello", 1, none, none⟩

/-- Sample freshly created in-memory session. -/
def sampleFreshChat : ChatModel := ⟨"c1", "u", "New Chat", none, 0, 0, []⟩

/-- Sample in-memory session that already holds one message. -/
def sampleSeededChat : ChatModel :=
  ⟨"c1", "u", "t", none, 0, 0, [⟨"m0", "c1", "user", "hi", 0, none, none⟩]⟩

/-- Sample message row used by concrete instances. -/
def sampleMsgRow : MessageRow := ⟨"m1", "", "user", "hello", 1, none, none⟩

/-- Sample freshly created chat row. -/
def sampleFreshRow : ChatRow := ⟨"c1", "u", "New Chat", none, 0, 0⟩

/-- Sample chat row whose session already holds one stored message. -/
def sampleSeededRow : ChatRow := ⟨"c1", "u", "t", none, 0, 0⟩

mutual

/-- `Json.beq` is reflexive. -/
theorem Json.beq_refl : ∀ j : Json, Json.beq j j = true
  | .null => rfl
  | .bool b => by simp [Json.beq]
  | .num n => by simp [Json.beq]
  | .str s => by simp [Json.beq]
  | .arr xs => by simpa [Json.beq] using Json.beqList_refl xs
  | .obj xs => by simpa [Json.beq] using Json.beqEntries_refl xs

/-- `Json.beqList` is reflexive. -/
theorem Json.beqList_refl : ∀ xs : List Json, Json.beqList xs xs = true
  | [] => rfl
  | x :: xs => by
      simp only [Json.beqList, Bool.and_eq_true]
      exact ⟨Json.beq_refl x, Json.beqList_refl xs⟩

/-- `Json.beqEntries` is reflexive. -/
theorem Json.beqEntries_refl : ∀ xs : List (String × Json), Json.beqEntries xs xs = true
  | [] => rfl
  | (k, x) :: xs => by
      simp only [Json.beqEntries, Bool.and_eq_true]
      exact ⟨⟨by simp, Json.beq_refl x⟩, Json.beqEntries_refl xs⟩

end

/-- A JSON value `beq`-equal to a string literal is that string literal. -/
theorem Json.beq_str_iff (j : Json) (s : String) :
    (Json.beq j (Json.str s) = true) ↔ j = Json.str s := by
  cases j <;> simp [Json.beq]

/-- Looking up the key just stored by `entriesInsert` yields the new entry. -/
theorem lookup_entriesInsert_self (es : List (String × CacheEntry)) (key : String)
    (e : CacheEntry) : (entriesInsert es key e).lookup key = some e := by
  induction es with
  | nil => simp [entriesInsert, List.lookup]
  | cons kv rest ih =>
      by_cases hk : kv.1 = key
      · simp [entriesInsert, hk, List.lookup]
      · have hk' : (kv.1 == key) = false := by simp [hk]
        have hke : (key == kv.1) = false := by
          simp only [beq_eq_false_iff_ne]
          exact fun he => hk he.symm
        simp [entriesInsert, hk', List.lookup, hke, ih]

/-- `entriesInsert` at one key does not change lookups at other keys. -/
theorem lookup_entriesInsert_other (es : List (String × CacheEntry)) (key : String)
    (e : CacheEntry) (k : String) (h : k ≠ key) :
    (entriesInsert es key e).lookup k = es.lookup k := by
  have hkey : (k == key) = false := by simp [h]
  induction es with
  | nil => simp [entriesInsert, List.lookup, hkey]
  | cons kv rest ih =>
      by_cases hk : kv.1 = key
      · have hkk : (k == kv.1) = false := by simp [hk, h]
        simp [entriesInsert, hk, List.lookup, hkk, hkey]
      · have hk' : (kv.1 == key) = false := by simp [hk]
        by_cases hkk : k = kv.1
        · simp [entriesInsert, hk', List.lookup, hkk]
        · simp [entriesInsert, hk', List.lookup, hkk, ih]

/-- Claim C7: for every invocation that resolves its agent and session and
starts a stream, the very first frame delivered is the `chat.created` frame
carrying the resolved session id, ahead of every frame derived from producer
output; this holds for all producer outcomes, including an empty producer
output (`chunks = []`) and a failing inference call (`err = some e`). -/
theorem chatCreated_frame_always_first (loads : String → Option Json) (chat_id : String)
    (messages : List (List (String × String))) (chunks : List Json) (err : Option String)
    (umid amid : String) (unow anow : Nat) :
    ((streamAndStoreRun loads chat_id messages chunks err umid amid unow anow).1).head? =
      some (Frame.data (mkChatCreatedEvent chat_id)) ∧
    ((streamAndStoreRun loads chat_id messages chunks err umid amid unow anow).1).tail =
      predictStreamFrames chunks err := by
  exact ⟨rfl, rfl⟩

/-- Claim C6: when the underlying inference producer raises after yielding any
chunks (none of which is itself an error-typed payload), the frame stream
delivered to the caller contains exactly one error frame, and it is followed
directly by the completion sentinel terminating the stream; the stream is a
total function of the producer outcome, so no producer error escapes as an
exception to the consumer. -/
theorem producer_error_one_error_frame_then_done (loads : String → Option Json)
    (chat_id : String) (messages : List (List (String × String))) (chunks : List Json)
    (e : String) (umid amid : String) (unow anow : Nat)
    (h : ∀ c ∈ chunks, (c.getD "type" .null == Json.str "error") = false) :
    ((streamAndStoreRun loads chat_id messages chunks (some e) umid amid unow anow).1).filter
        isErrorFrame = [Frame.data (mkErrorEvent e)] ∧
    ∃ l, (streamAndStoreRun loads chat_id messages chunks (some e) umid amid unow anow).1 =
      l ++ [Frame.data (mkErrorEvent e), Frame.done] := by
  constructor
  · have h1 : isErrorFrame (Frame.data (mkChatCreatedEvent chat_id)) = false := rfl
    have h2 : (chunks.map Frame.data).filter isErrorFrame = [] := by
      rw [List.filter_eq_nil_iff]
      intro f hf
      rcases List.mem_map.1 hf with ⟨c, hc, rfl⟩
      simp [isErrorFrame, h c hc]
    have h3 : isErrorFrame (Frame.data (mkErrorEvent e)) = true := rfl
    have h4 : isErrorFrame Frame.done = false := rfl
    simp [streamAndStoreRun, streamAndStoreFrames, predictStreamFrames, List.filter_append,
      List.filter_cons, h1, h2, h3, h4]
  · exact ⟨Frame.data (mkChatCreatedEvent chat_id) :: chunks.map Frame.data, by
      simp [streamAndStoreRun, streamAndStoreFrames, predictStreamFrames]⟩

/-- Witness for C6 at a concrete input: one ordinary chunk, producer error
`boom`. -/
theorem producer_error_one_error_frame_then_done_witness :
    ((streamAndStoreRun (fun _ => none) "chat_1" [] [Json.obj [("type", Json.str "response.done")]]
        (some "boom") "m1" "m2" 0 0).1).filter isErrorFrame =
      [Frame.data (mkErrorEvent "boom")] ∧
    ∃ l, (streamAndStoreRun (fun _ => none) "chat_1" []
        [Json.obj [("type", Json.str "response.done")]] (some "boom") "m1" "m2" 0 0).1 =
      l ++ [Frame.data (mkErrorEvent "boom"), Frame.done] :=
  producer_error_one_error_frame_then_done (fun _ => none) "chat_1" []
    [Json.obj [("type", Json.str "response.done")]] "boom" "m1" "m2" 0 0
    (by intro c hc; simp at hc; subst hc; rfl)

/-- Claim C9: a second cache lookup for a key within the TTL window of a first
successful fetch returns the fetched payload without invoking the underlying
fetch function again, so across the two calls the fetch runs exactly once. -/
theorem cache_fetches_once_within_ttl (st0 : CacheState) (key : String) (t0 t1 : Nat)
    (d d2 : Json) (hmiss : st0.entries.lookup key = none)
    (hwin : t1 - t0 < CACHE_TTL_SECONDS) :
    (asyncGetAgentDetails st0 key t0 d).1 = d ∧
    (asyncGetAgentDetails st0 key t0 d).2.2 = 1 ∧
    (asyncGetAgentDetails (asyncGetAgentDetails st0 key t0 d).2.1 key t1 d2).1 = d ∧
    (asyncGetAgentDetails (asyncGetAgentDetails st0 key t0 d).2.1 key t1 d2).2.2 = 0 ∧
    (asyncGetAgentDetails st0 key t0 d).2.2 +
      (asyncGetAgentDetails (asyncGetAgentDetails st0 key t0 d).2.1 key t1 d2).2.2 = 1 := by
  have hfirst : asyncGetAgentDetails st0 key t0 d = (d, setCache st0 key d t0, 1) := by
    simp [asyncGetAgentDetails, getFromCache, hmiss]
  have hlook : (setCache st0 key d t0).entries.lookup key =
      some { data := d, timestamp := t0, refreshing := false } := by
    simp [setCache, lookup_entriesInsert_self]
  have hsecond : asyncGetAgentDetails (setCache st0 key d t0) key t1 d2 =
      (d, setCache st0 key d t0, 0) := by
    simp [asyncGetAgentDetails, getFromCache, hlook, hwin]
  rw [hfirst]
  simp [hsecond]

/-- Witness for C9 at a concrete input: empty cache, fetch at time 0, second
call at time 299. -/
theorem cache_fetches_once_within_ttl_witness :
    (asyncGetAgentDetails ⟨[], fun _ => 0, fun _ => 0⟩ "mas-1-endpoint" 0 (Json.str "v")).1 =
        Json.str "v" ∧
    (asyncGetAgentDetails ⟨[], fun _ => 0, fun _ => 0⟩ "mas-1-endpoint" 0 (Json.str "v")).2.2 = 1 ∧
    (asyncGetAgentDetails
        (asyncGetAgentDetails ⟨[], fun _ => 0, fun _ => 0⟩ "mas-1-endpoint" 0
          (Json.str "v")).2.1 "mas-1-endpoint" 299 (Json.str "w")).1 = Json.str "v" ∧
    (asyncGetAgentDetails
        (asyncGetAgentDetails ⟨[], fun _ => 0, fun _ => 0⟩ "mas-1-endpoint" 0
          (Json.str "v")).2.1 "mas-1-endpoint" 299 (Json.str "w")).2.2 = 0 ∧
    (asyncGetAgentDetails ⟨[], fun _ => 0, fun _ => 0⟩ "mas-1-endpoint" 0 (Json.str "v")).2.2 +
      (asyncGetAgentDetails
        (asyncGetAgentDetails ⟨[], fun _ => 0, fun _ => 0⟩ "mas-1-endpoint" 0
          (Json.str "v")).2.1 "mas-1-endpoint" 299 (Json.str "w")).2.2 = 1 :=
  cache_fetches_once_within_ttl ⟨[], fun _ => 0, fun _ => 0⟩ "mas-1-endpoint" 0 299
    (Json.str "v") (Json.str "w") rfl (by decide)

/-- Claim C10: when the request carries a non-empty input message list, the
persistence phase after the stream stores exactly one user-turn message,
built from the last input element (role copied with default `user`, content
copied with default empty); the remaining stored messages are the assistant
part, which is derived only from the streamed events and contains at most one
message, so earlier input elements are never persisted. -/
theorem user_turn_persisted_from_last_input (loads : String → Option Json) (chat_id : String)
    (messages : List (List (String × String))) (chunks : List Json) (err : Option String)
    (umid amid : String) (unow anow : Nat) (h : messages ≠ []) :
    (streamAndStoreRun loads chat_id messages chunks err umid amid unow anow).2 =
      { id := umid, role := ((messages.getLast h).lookup "role").getD "user",
        content := .str (((messages.getLast h).lookup "content").getD ""),
        timestamp := unow, trace_id := none, trace_summary := none } ::
      assistantMessagesFromStream (extractEvents loads (streamedEvents chunks err)) amid anow ∧
    (assistantMessagesFromStream (extractEvents loads (streamedEvents chunks err))
        amid anow).length ≤ 1 := by
  constructor
  · have hlast : messages.getLast? = some (messages.getLast h) :=
      List.getLast?_eq_getLast messages h
    simp [streamAndStoreRun, storedMessages, userMessageFromInput, hlast]
  · unfold assistantMessagesFromStream
    split <;> split <;> simp

/-- Witness for C10 at a concrete input: a two-element input list; only the
second element is persisted. -/
theorem user_turn_persisted_from_last_input_witness :
    (streamAndStoreRun (fun _ => none) "chat_1"
        [[("role", "system"), ("content", "ignored")], [("role", "user"), ("content", "hi")]]
        [] none "m1" "m2" 5 6).2 =
      { id := "m1", role := "user", content := .str "hi", timestamp := 5,
        trace_id := none, trace_summary := none } ::
      assistantMessagesFromStream (extractEvents (fun _ => none) (streamedEvents [] none))
        "m2" 6 ∧
    (assistantMessagesFromStream (extractEvents (fun _ => none) (streamedEvents [] none))
        "m2" 6).length ≤ 1 := by
  have h := user_turn_persisted_from_last_input (fun _ => none) "chat_1"
    [[("role", "system"), ("content", "ignored")], [("role", "user"), ("content", "hi")]]
    [] none "m1" "m2" 5 6 (by simp)
  simpa using h

/-- Trace id after one `databricks_output` check: an already latched id is
kept, otherwise the candidate of the checked object (if any) is latched. -/
theorem latchTrace_trace_id (st : ExtractState) (dbOut : Json) :
    (latchTrace st dbOut).trace_id =
      match st.trace_id with
      | some t => some t
      | none => dbTraceCandidate dbOut := by
  unfold latchTrace dbTraceCandidate
  cases hst : st.trace_id with
  | some t => simp [hst]
  | none =>
      cases htr : dbOut.truthy with
      | false => simp [hst, htr]
      | true =>
          simp only [hst, htr, Option.isNone_none, Bool.and_self, if_true]
          cases hget : ((dbOut.getD "trace" (.obj [])).getD "info" (.obj [])).get "trace_id" with
          | none => simp [hget]
          | some tid => cases htid : tid.truthy <;> simp [hget, htid]

/-- A `databricks_output` check never changes the collected function calls. -/
theorem latchTrace_function_calls (st : ExtractState) (dbOut : Json) :
    (latchTrace st dbOut).function_calls = st.function_calls := by
  simp only [latchTrace]
  split
  · split
    · split <;> rfl
    · rfl
  · rfl

/-- The item dispatch never changes the latched trace id. -/
theorem processItem_trace_id (loads : String → Option Json) (st1 : ExtractState)
    (item : Json) : (processItem loads st1 item).trace_id = st1.trace_id := by
  simp only [processItem]
  split
  · split <;> rfl
  · split
    · rfl
    · split <;> rfl

/-- Trace id after one extractor event: an already latched id is kept,
otherwise the first candidate of the event's checked locations is latched. -/
theorem processEvent_trace_id (loads : String → Option Json) (st : ExtractState)
    (event : Json) :
    (processEvent loads st event).trace_id =
      match st.trace_id with
      | some t => some t
      | none => (eventTraceCandidates event).head? := by
  cases hoid : (event.getD "type" (.str "") == Json.str "response.output_item.done") with
  | true =>
      have hety : event.getD "type" (.str "") = Json.str "response.output_item.done" :=
        (Json.beq_str_iff _ _).1 hoid
      have hrd : (event.getD "type" (.str "") == Json.str "response.done") = false := by
        rw [hety]; decide
      simp only [processEvent, eventTraceCandidates, hoid, hrd, if_true, Bool.false_eq_true,
        if_false, List.append_nil]
      rw [latchTrace_trace_id, processItem_trace_id, latchTrace_trace_id]
      cases st.trace_id with
      | some t => simp
      | none =>
          cases dbTraceCandidate (event.getD "databricks_output" (.obj [])) with
          | some t => simp
          | none =>
              cases dbTraceCandidate ((event.getD "item" (.obj [])).getD "databricks_output"
                  (.obj [])) <;> simp [Option.toList]
  | false =>
      cases hrd : (event.getD "type" (.str "") == Json.str "response.done") with
      | true =>
          simp only [processEvent, eventTraceCandidates, hoid, hrd, if_true,
            Bool.false_eq_true, if_false, List.nil_append]
          rw [latchTrace_trace_id, latchTrace_trace_id]
          cases st.trace_id with
          | some t => simp
          | none =>
              cases dbTraceCandidate (event.getD "databricks_output" (.obj [])) with
              | some t => simp
              | none =>
                  cases dbTraceCandidate ((event.getD "response" (.obj [])).getD
                      "databricks_output" (.obj [])) <;> simp [Option.toList]
      | false =>
          simp only [processEvent, eventTraceCandidates, hoid, hrd, Bool.false_eq_true,
            if_false, List.append_nil, List.nil_append]
          rw [latchTrace_trace_id]
          cases st.trace_id with
          | some t => simp
          | none =>
              cases dbTraceCandidate (event.getD "databricks_output" (.obj [])) <;>
                simp [Option.toList]

/-- Trace id of a fold of the extractor from any accumulator. -/
theorem foldl_trace_id (loads : String → Option Json) (events : List Json)
    (st : ExtractState) :
    (events.foldl (processEvent loads) st).trace_id =
      match st.trace_id with
      | some t => some t
      | none => firstTraceId events := by
  induction events generalizing st with
  | nil =>
      simp only [List.foldl_nil, firstTraceId, List.map_nil, List.flatten_nil, List.head?_nil]
      cases st.trace_id <;> rfl
  | cons e es ih =>
      simp only [List.foldl_cons]
      rw [ih, processEvent_trace_id]
      simp only [firstTraceId, List.map_cons, List.flatten_cons, List.head?_append]
      cases st.trace_id with
      | some t => rfl
      | none => cases (eventTraceCandidates e).head? <;> simp [Option.or]

/-- Claim C5: over any decoded event sequence, the extracted trace id equals
the first trace id encountered in stream order among the three recognized
nesting locations (event-level `databricks_output`, item-level
`databricks_output` of `response.output_item.done` events, and the response
payload of `response.done` events); every later trace id is ignored even
when it differs. -/
theorem extractor_latches_first_trace_id (loads : String → Option Json)
    (events : List Json) :
    (extractEvents loads events).trace_id = firstTraceId events := by
  rw [extractEvents, foldl_trace_id]
  rfl

/-- Processing a `function_call` item appends one record with parsed
arguments and no output. -/
theorem processEvent_functionCall (loads : String → Option Json) (st : ExtractState)
    (cid nm args : Json) :
    processEvent loads st (mkFunctionCallEvent cid nm args) =
      { st with function_calls := st.function_calls ++
          [{ call_id := cid, name := nm, arguments := parseJsonField loads args,
             output := none }] } :=
  rfl

/-- Processing a `function_call_output` item rewrites the call list through
`setFirstOutput`. -/
theorem processEvent_functionCallOutput (loads : String → Option Json) (st : ExtractState)
    (cid out : Json) :
    processEvent loads st (mkFunctionCallOutputEvent cid out) =
      { st with function_calls :=
          setFirstOutput st.function_calls cid (parseJsonField loads out) } :=
  rfl

/-- An output whose call id matches no recorded call leaves the records
unchanged. -/
theorem setFirstOutput_of_no_match (l : List FunctionCallRec) (cid out : Json)
    (h : ∀ fc ∈ l, (fc.call_id == cid) = false) : setFirstOutput l cid out = l := by
  induction l with
  | nil => rfl
  | cons fc rest ih =>
      have hb := h fc (List.mem_cons_self fc rest)
      simp only [setFirstOutput, hb, Bool.false_eq_true, if_false]
      rw [ih (fun g hg => h g (List.mem_cons_of_mem fc hg))]

/-- When exactly one recorded call matches the id, `setFirstOutput` attaches
the output to precisely that record. -/
theorem filter_setFirstOutput (l : List FunctionCallRec) (cid out : Json)
    (fc0 : FunctionCallRec)
    (h : l.filter (fun fc => fc.call_id == cid) = [fc0]) :
    (setFirstOutput l cid out).filter (fun fc => fc.call_id == cid) =
      [{ fc0 with output := some out }] := by
  induction l with
  | nil => simp at h
  | cons fc rest ih =>
      cases hb : (fc.call_id == cid) with
      | true =>
          have h' : fc :: rest.filter (fun fc => fc.call_id == cid) = [fc0] := by
            simpa [List.filter_cons, hb] using h
          have hfc : fc = fc0 := (List.cons_eq_cons.1 h').1
          have hrest : rest.filter (fun fc => fc.call_id == cid) = [] :=
            (List.cons_eq_cons.1 h').2
          subst hfc
          simp [setFirstOutput, hb, List.filter_cons, hrest]
      | false =>
          have h' : rest.filter (fun fc => fc.call_id == cid) = [fc0] := by
            simpa [List.filter_cons, hb] using h
          simp [setFirstOutput, hb, List.filter_cons, ih h']

/-- Splitting an extractor fold at an appended suffix. -/
theorem extractEvents_append (loads : String → Option Json) (xs ys : List Json) :
    extractEvents loads (xs ++ ys) = ys.foldl (processEvent loads) (extractEvents loads xs) := by
  unfold extractEvents
  exact List.foldl_append _ _ _ _

/-- Claim C4: (first part) when the events contain a `function_call` item for
call id `cid` (and no other recorded call shares that id, expressed by the
state after the prefix and the intervening events) followed by a
`function_call_output` item with the same id, the result contains exactly one
record for that id, with both arguments and output populated; (second part)
a `function_call_output` whose call id matches no previously recorded call
leaves every recorded call — and in particular every unset output —
unchanged. -/
theorem extractor_pairs_function_call_output :
    (∀ (loads : String → Option Json) (pre mid : List Json) (cid nm args out : Json),
      ((extractEvents loads (pre ++ [mkFunctionCallEvent cid nm args] ++ mid)).function_calls.filter
          (fun fc => fc.call_id == cid)) =
        [{ call_id := cid, name := nm, arguments := parseJsonField loads args,
           output := none }] →
      ((extractEvents loads (pre ++ [mkFunctionCallEvent cid nm args] ++ mid ++
          [mkFunctionCallOutputEvent cid out])).function_calls.filter
          (fun fc => fc.call_id == cid)) =
        [{ call_id := cid, name := nm, arguments := parseJsonField loads args,
           output := some (parseJsonField loads out) }]) ∧
    (∀ (loads : String → Option Json) (events : List Json) (cid out : Json),
      (∀ fc ∈ (extractEvents loads events).function_calls, (fc.call_id == cid) = false) →
      (extractEvents loads (events ++ [mkFunctionCallOutputEvent cid out])).function_calls =
        (extractEvents loads events).function_calls) := by
  constructor
  · intro loads pre mid cid nm args out h
    rw [extractEvents_append, List.foldl_cons, List.foldl_nil, processEvent_functionCallOutput]
    exact filter_setFirstOutput _ cid (parseJsonField loads out) _ h
  · intro loads events cid out h
    rw [extractEvents_append, List.foldl_cons, List.foldl_nil, processEvent_functionCallOutput]
    exact setFirstOutput_of_no_match _ cid (parseJsonField loads out) h

/-- Witness for C4 at concrete inputs: a matching pair `c1`/`c1` yields one
fully populated record; a non-matching output `c2` changes nothing. -/
theorem extractor_pairs_function_call_output_witness :
    ((extractEvents (fun _ => none) ([] ++ [mkFunctionCallEvent (Json.str "c1")
        (Json.str "tool") (Json.str "a")] ++ [] ++
        [mkFunctionCallOutputEvent (Json.str "c1") (Json.str "o")])).function_calls.filter
        (fun fc => fc.call_id == Json.str "c1")) =
      [{ call_id := Json.str "c1", name := Json.str "tool",
         arguments := parseJsonField (fun _ => none) (Json.str "a"),
         output := some (parseJsonField (fun _ => none) (Json.str "o")) }] ∧
    (extractEvents (fun _ => none) ([mkFunctionCallEvent (Json.str "c1") (Json.str "tool")
        (Json.str "a")] ++ [mkFunctionCallOutputEvent (Json.str "c2")
        (Json.str "o")])).function_calls =
      (extractEvents (fun _ => none) [mkFunctionCallEvent (Json.str "c1") (Json.str "tool")
        (Json.str "a")]).function_calls := by
  constructor
  · exact extractor_pairs_function_call_output.1 (fun _ => none) [] [] (Json.str "c1")
      (Json.str "tool") (Json.str "a") (Json.str "o") rfl
  · refine extractor_pairs_function_call_output.2 (fun _ => none) _ (Json.str "c2")
      (Json.str "o") ?_
    intro fc hfc
    have hl : (extractEvents (fun _ => none) [mkFunctionCallEvent (Json.str "c1")
        (Json.str "tool") (Json.str "a")]).function_calls =
        [{ call_id := Json.str "c1", name := Json.str "tool",
           arguments := parseJsonField (fun _ => none) (Json.str "a"), output := none }] := rfl
    rw [hl] at hfc
    rcases List.mem_singleton.1 hfc with rfl
    rfl

/-- The running minimum of a fold is the seed or one of the elements. -/
theorem foldlMin_mem {α : Type _} (f : α → Nat) (xs : List α) (a : α) :
    xs.foldl (fun best d => if f d < f best then d else best) a ∈ a :: xs := by
  induction xs generalizing a with
  | nil => simp
  | cons x xs ih =>
      simp only [List.foldl_cons]
      rcases List.mem_cons.1 (ih (if f x < f a then x else a)) with h | h
      · rw [h]
        by_cases hx : f x < f a
        · simp only [hx, if_true]
          exact List.mem_cons_of_mem a (List.mem_cons_self x xs)
        · simp only [hx, if_false]
          exact List.mem_cons_self a (x :: xs)
      · exact List.mem_cons_of_mem a (List.mem_cons_of_mem x h)

/-- The running minimum of a fold is below the seed and every element. -/
theorem foldlMin_le {α : Type _} (f : α → Nat) (xs : List α) (a : α) :
    ∀ y ∈ a :: xs, f (xs.foldl (fun best d => if f d < f best then d else best) a) ≤ f y := by
  induction xs generalizing a with
  | nil =>
      intro y hy
      rcases List.mem_cons.1 hy with rfl | h
      · simp
      · simp at h
  | cons x xs ih =>
      intro y hy
      have hseed : f (if f x < f a then x else a) ≤ f a := by
        by_cases hx : f x < f a <;> simp [hx] <;> omega
      have hseedx : f (if f x < f a then x else a) ≤ f x := by
        by_cases hx : f x < f a <;> simp [hx] <;> omega
      have hres := ih (if f x < f a then x else a)
      have hresseed := hres _ (List.mem_cons_self _ xs)
      rcases List.mem_cons.1 hy with rfl | h
      · exact le_trans hresseed hseed
      · rcases List.mem_cons.1 h with rfl | h2
        · exact le_trans hresseed hseedx
        · exact hres _ (List.mem_cons_of_mem _ h2)

/-- `firstMinBy` of a non-empty list is one of its elements. -/
theorem firstMinBy_mem {α : Type _} (f : α → Nat) (l : List α) (x : α)
    (h : firstMinBy f l = some x) : x ∈ l := by
  cases l with
  | nil => simp [firstMinBy] at h
  | cons a xs =>
      simp only [firstMinBy, Option.some.injEq] at h
      exact h ▸ foldlMin_mem f xs a

/-- `firstMinBy` minimizes `f` over the list. -/
theorem firstMinBy_le {α : Type _} (f : α → Nat) (l : List α) (x : α)
    (h : firstMinBy f l = some x) : ∀ y ∈ l, f x ≤ f y := by
  cases l with
  | nil => simp [firstMinBy] at h
  | cons a xs =>
      simp only [firstMinBy, Option.some.injEq] at h
      exact h ▸ foldlMin_le f xs a

/-- `firstMinBy` of a non-empty list exists. -/
theorem firstMinBy_isSome {α : Type _} (f : α → Nat) (l : List α) (h : l ≠ []) :
    ∃ x, firstMinBy f l = some x := by
  cases l with
  | nil => exact absurd rfl h
  | cons a xs => exact ⟨_, rfl⟩

/-- Filtering out a present element that fails the predicate strictly shrinks
the list. -/
theorem length_filter_lt_of_mem {α : Type _} (l : List α) (p : α → Bool) (x : α)
    (hx : x ∈ l) (hp : p x = false) : (l.filter p).length < l.length := by
  induction l with
  | nil => simp at hx
  | cons a l ih =>
      rcases List.mem_cons.1 hx with rfl | h
      · rw [List.filter_cons_of_neg (by simp [hp])]
        exact Nat.lt_succ_of_le (List.length_filter_le p l)
      · cases ha : p a with
        | true =>
            rw [List.filter_cons_of_pos ha]
            simpa using ih h
        | false =>
            rw [List.filter_cons_of_neg (by simp [ha])]
            exact Nat.lt_succ_of_lt (ih h)

/-- A dict insertion grows the list by at most one entry. -/
theorem dictInsert_length_le (l : List ChatModel) (c : ChatModel) :
    (dictInsert l c).length ≤ l.length + 1 := by
  induction l with
  | nil => simp [dictInsert]
  | cons d rest ih =>
      cases hd : (d.id == c.id) with
      | true =>
          simp only [dictInsert, hd, if_true, List.length_cons]
          omega
      | false =>
          simp only [dictInsert, hd, Bool.false_eq_true, if_false, List.length_cons]
          omega

/-- Every reachable in-memory store keeps the configured bound. -/
theorem memReachable_max_chats {email : String} {maxc : Nat} {s : MemoryChatStorage}
    (h : MemReachable email maxc s) : s.max_chats = maxc := by
  induction h with
  | init => rfl
  | create s cid now title aid hs ih =>
      simp only [MemoryChatStorage.create]
      split <;> (try split) <;> exact ih
  | add_message s cid msg now hs ih =>
      simp only [MemoryChatStorage.add_message]
      split <;> exact ih
  | update_title s cid title now hs ih =>
      simp only [MemoryChatStorage.update_title]
      split <;> exact ih
  | delete s cid hs ih =>
      simp only [MemoryChatStorage.delete]
      split <;> exact ih
  | clear_all s hs ih => exact ih

/-- One `create` step keeps the chat count within the bound. -/
theorem memCreate_length_le (s : MemoryChatStorage) (cid : String) (now : Nat)
    (title : String) (aid : Option String) (maxc : Nat) (hmax : s.max_chats = maxc)
    (h1 : 1 ≤ maxc) (hlen : s.chats.length ≤ maxc) :
    ((s.create cid now title aid).1).chats.length ≤ maxc := by
  simp only [MemoryChatStorage.create, hmax]
  by_cases hfull : maxc ≤ s.chats.length
  · have hne : s.chats ≠ [] := by
      intro he
      rw [he] at hfull
      simp at hfull
      omega
    obtain ⟨oldest, holdest⟩ := firstMinBy_isSome (fun c => c.updated_at) s.chats hne
    have hmem := firstMinBy_mem _ _ _ holdest
    have hdrop : (s.chats.filter (fun c => !(c.id == oldest.id))).length < s.chats.length :=
      length_filter_lt_of_mem _ _ oldest hmem (by simp)
    simp only [hfull, if_true, holdest]
    calc (dictInsert (s.chats.filter (fun c => !(c.id == oldest.id)))
            (memNewChat s.user_email cid now title aid)).length
        ≤ (s.chats.filter (fun c => !(c.id == oldest.id))).length + 1 :=
          dictInsert_length_le _ _
      _ ≤ maxc := by omega
  · simp only [hfull, if_false]
    calc (dictInsert s.chats (memNewChat s.user_email cid now title aid)).length
        ≤ s.chats.length + 1 := dictInsert_length_le _ _
      _ ≤ maxc := by omega

/-- `add_message` never changes the number of stored chats. -/
theorem memAddMessage_length (s : MemoryChatStorage) (cid : String) (msg : MessageModel)
    (now : Nat) : ((s.add_message cid msg now).1).chats.length = s.chats.length := by
  simp only [MemoryChatStorage.add_message]
  split
  · simp
  · rfl

/-- `update_title` never changes the number of stored chats. -/
theorem memUpdateTitle_length (s : MemoryChatStorage) (cid title : String) (now : Nat) :
    ((s.update_title cid title now).1).chats.length = s.chats.length := by
  simp only [MemoryChatStorage.update_title]
  split
  · simp
  · rfl

/-- Every reachable in-memory store of a user holds at most `max_chats`
chats (for a positive bound). -/
theorem memReachable_length_le {email : String} {maxc : Nat} {s : MemoryChatStorage}
    (h1 : 1 ≤ maxc) (h : MemReachable email maxc s) : s.chats.length ≤ maxc := by
  induction h with
  | init => simp
  | create s cid now title aid hs ih =>
      exact memCreate_length_le s cid now title aid maxc (memReachable_max_chats hs) h1 ih
  | add_message s cid msg now hs ih => rw [memAddMessage_length]; exact ih
  | update_title s cid title now hs ih => rw [memUpdateTitle_length]; exact ih
  | delete s cid hs ih =>
      simp only [MemoryChatStorage.delete]
      split
      · exact le_trans (List.length_filter_le _ _) ih
      · exact ih
  | clear_all s hs ih => simp [MemoryChatStorage.clear_all]

/-- Filtering with a stronger predicate yields at most as many elements. -/
theorem length_filter_mono {α : Type _} (l : List α) (p q : α → Bool)
    (himp : ∀ a, p a = true → q a = true) : (l.filter p).length ≤ (l.filter q).length := by
  induction l with
  | nil => simp
  | cons a l ih =>
      cases hp : p a with
      | true =>
          rw [List.filter_cons_of_pos hp, List.filter_cons_of_pos (himp a hp)]
          simpa using ih
      | false =>
          rw [List.filter_cons_of_neg (by simp [hp])]
          cases hq : q a with
          | true =>
              rw [List.filter_cons_of_pos hq]
              exact le_trans ih (Nat.le_succ _)
          | false =>
              rw [List.filter_cons_of_neg (by simp [hq])]
              exact ih

/-- Conjoining a predicate that fails on a present `q`-element strictly
shrinks the `q`-filtered list. -/
theorem length_filter_and_lt {α : Type _} (l : List α) (p q : α → Bool) (x : α)
    (hx : x ∈ l) (hq : q x = true) (hp : p x = false) :
    (l.filter (fun a => p a && q a)).length < (l.filter q).length := by
  induction l with
  | nil => simp at hx
  | cons a l ih =>
      rcases List.mem_cons.1 hx with rfl | h
      · rw [List.filter_cons_of_neg (by simp [hp]), List.filter_cons_of_pos hq]
        exact Nat.lt_succ_of_le
          (length_filter_mono l _ q (fun b hb => by
            simp only [Bool.and_eq_true] at hb
            exact hb.2))
      · cases hand : (p a && q a) with
        | true =>
            have hqa : q a = true := by
              have hand2 := hand
              simp only [Bool.and_eq_true] at hand2
              exact hand2.2
            rw [List.filter_cons_of_pos (by simp [hand]), List.filter_cons_of_pos hqa]
            simpa using ih h
        | false =>
            rw [List.filter_cons_of_neg (by simp [hand])]
            cases hqa : q a with
            | true =>
                rw [List.filter_cons_of_pos hqa]
                exact Nat.lt_succ_of_lt (ih h)
            | false =>
                rw [List.filter_cons_of_neg (by simp [hqa])]
                exact ih h

/-- Filtering a mapped list whose map preserves the predicate keeps the
filtered length. -/
theorem length_filter_map_eq {α : Type _} (l : List α) (f : α → α) (q : α → Bool)
    (h : ∀ a, q (f a) = q a) : ((l.map f).filter q).length = (l.filter q).length := by
  induction l with
  | nil => simp
  | cons a l ih =>
      cases hq : q a with
      | true =>
          rw [List.map_cons, List.filter_cons_of_pos (by rw [h a]; exact hq),
            List.filter_cons_of_pos hq]
          simpa using ih
      | false =>
          rw [List.map_cons, List.filter_cons_of_neg (by simp [h a, hq]),
            List.filter_cons_of_neg (by simp [hq])]
          exact ih

/-- One `create` transaction keeps the creating owner's chat count within the
bound. -/
theorem pgCreate_count_le (db : PgDatabase) (maxc : Nat) (email cid : String) (now : Nat)
    (title : String) (aid : Option String) (h1 : 1 ≤ maxc)
    (hcnt : (pgUserChats db email).length ≤ maxc) :
    (pgUserChats (pgCreate db email maxc cid now title aid).1 email).length ≤ maxc := by
  have hrow : (List.filter (fun c => c.user_email == email) [pgNewRow email cid now title aid]).length = 1 := by
    simp [List.filter, pgNewRow]
  simp only [pgCreate, pgUserChats] at hcnt ⊢
  by_cases hfull : maxc ≤ (db.chats.filter (fun c => c.user_email == email)).length
  · have hne : db.chats.filter (fun c => c.user_email == email) ≠ [] := by
      intro he
      rw [he] at hfull
      simp at hfull
      omega
    obtain ⟨oldest, holdest⟩ := firstMinBy_isSome (fun c => c.updated_at) _ hne
    have hmemf := firstMinBy_mem _ _ _ holdest
    have hmem : oldest ∈ db.chats := (List.mem_filter.1 hmemf).1
    have hq : (oldest.user_email == email) = true := (List.mem_filter.1 hmemf).2
    rw [if_pos hfull, holdest]
    rw [List.filter_append, List.length_append, hrow, List.filter_filter]
    have hlt := length_filter_and_lt db.chats (fun c => !(c.id == oldest.id))
      (fun c => c.user_email == email) oldest hmem hq (by simp)
    simp only [Bool.and_comm] at hlt ⊢
    omega
  · rw [if_neg hfull]
    rw [List.filter_append, List.length_append, hrow]
    omega

/-- Filtering twice yields at most as many elements as filtering once. -/
theorem length_filter_filter_le {α : Type _} (l : List α) (p q : α → Bool) :
    ((l.filter p).filter q).length ≤ (l.filter q).length := by
  rw [List.filter_filter]
  exact length_filter_mono _ _ _ (fun a ha => by
    simp only [Bool.and_eq_true] at ha
    exact ha.1)

/-- One `create` transaction never increases another owner's chat count. -/
theorem pgCreate_count_le_other (db : PgDatabase) (maxc : Nat) (email cid : String)
    (now : Nat) (title : String) (aid : Option String) (e : String) (he : e ≠ email) :
    (pgUserChats (pgCreate db email maxc cid now title aid).1 e).length ≤
      (pgUserChats db e).length := by
  have hne2 : (email == e) = false := by
    simp only [beq_eq_false_iff_ne]
    exact Ne.symm he
  have hrow : (List.filter (fun c => c.user_email == e) [pgNewRow email cid now title aid]).length
      = 0 := by
    simp [List.filter, pgNewRow, hne2]
  simp only [pgCreate, pgUserChats]
  by_cases hfull : maxc ≤ (pgUserChats db email).length
  · simp only [pgUserChats] at hfull
    rw [if_pos hfull]
    cases holdest : firstMinBy (fun c => c.updated_at)
        (db.chats.filter (fun c => c.user_email == email)) with
    | none =>
        dsimp only
        rw [List.filter_append, List.length_append, hrow]
        omega
    | some oldest =>
        dsimp only
        rw [List.filter_append, List.length_append, hrow]
        have := length_filter_filter_le db.chats (fun c => !(c.id == oldest.id))
          (fun c => c.user_email == e)
        omega
  · simp only [pgUserChats] at hfull
    rw [if_neg hfull, List.filter_append, List.length_append, hrow]
    omega

/-- `add_message` never changes any owner's chat count. -/
theorem pgAddMessage_count (db : PgDatabase) (email cid : String) (msg : MessageRow)
    (now : Nat) (e : String) :
    (pgUserChats (pgAddMessage db email cid msg now).1 e).length =
      (pgUserChats db e).length := by
  simp only [pgAddMessage, pgUserChats]
  split
  · rfl
  · rename_i chat heq
    dsimp only
    exact length_filter_map_eq _ _ _ (fun a => by
      by_cases hg : (a.id == chat.id && a.user_email == email) = true
      · simp [hg]
      · simp [hg])

/-- `update_title` never changes any owner's chat count. -/
theorem pgUpdateTitle_count (db : PgDatabase) (email cid title : String) (now : Nat)
    (e : String) :
    (pgUserChats (pgUpdateTitle db email cid title now).1 e).length =
      (pgUserChats db e).length := by
  simp only [pgUpdateTitle, pgUserChats]
  split
  · rfl
  · rename_i chat heq
    dsimp only
    exact length_filter_map_eq _ _ _ (fun a => by
      by_cases hg : (a.id == chat.id && a.user_email == email) = true
      · simp [hg]
      · simp [hg])

/-- `delete` never increases any owner's chat count. -/
theorem pgDelete_count_le (db : PgDatabase) (email cid : String) (e : String) :
    (pgUserChats (pgDelete db email cid).1 e).length ≤ (pgUserChats db e).length := by
  simp only [pgDelete, pgUserChats]
  split
  · exact length_filter_filter_le _ _ _
  · exact le_refl _

/-- `clear_all` never increases any owner's chat count. -/
theorem pgClearAll_count_le (db : PgDatabase) (email : String) (e : String) :
    (pgUserChats (pgClearAll db email).1 e).length ≤ (pgUserChats db e).length := by
  simp only [pgClearAll, pgUserChats]
  exact length_filter_filter_le _ _ _

/-- Every owner's chat count stays within the bound in every reachable
database state (for a positive bound). -/
theorem pgReachable_count_le {maxc : Nat} {db : PgDatabase} (h1 : 1 ≤ maxc)
    (h : PgReachable maxc db) : ∀ email, (pgUserChats db email).length ≤ maxc := by
  induction h with
  | init => intro e; simp [pgUserChats]
  | create db email cid now title aid hdb hfresh ih =>
      intro e
      by_cases he : e = email
      · subst he
        exact pgCreate_count_le db maxc e cid now title aid h1 (ih e)
      · exact le_trans (pgCreate_count_le_other db maxc email cid now title aid e he) (ih e)
  | add_message db email cid msg now hdb ih =>
      intro e
      rw [pgAddMessage_count]
      exact ih e
  | update_title db email cid title now hdb ih =>
      intro e
      rw [pgUpdateTitle_count]
      exact ih e
  | delete db email cid hdb ih =>
      intro e
      exact le_trans (pgDelete_count_le db email cid e) (ih e)
  | clear_all db email hdb ih =>
      intro e
      exact le_trans (pgClearAll_count_le db email e) (ih e)

/-- Claim C1: for every owner and every reachable store state, immediately
after any `create` call returns, the owner's stored session count is at most
the configured bound `max_chats` (positive, default 10); the first conjunct
is the in-memory backend, the second the PostgreSQL backend. -/
theorem session_bound_after_create :
    (∀ (email : String) (maxc : Nat) (s : MemoryChatStorage) (cid : String) (now : Nat)
        (title : String) (aid : Option String), 1 ≤ maxc → MemReachable email maxc s →
        ((s.create cid now title aid).1).chats.length ≤ maxc) ∧
    (∀ (maxc : Nat) (db : PgDatabase) (email cid : String) (now : Nat) (title : String)
        (aid : Option String), 1 ≤ maxc → PgReachable maxc db →
        (pgUserChats (pgCreate db email maxc cid now title aid).1 email).length ≤ maxc) := by
  constructor
  · intro email maxc s cid now title aid h1 hs
    exact memCreate_length_le s cid now title aid maxc (memReachable_max_chats hs) h1
      (memReachable_length_le h1 hs)
  · intro maxc db email cid now title aid h1 hdb
    exact pgCreate_count_le db maxc email cid now title aid h1
      (pgReachable_count_le h1 hdb email)

/-- Witness for C1 at a concrete input: creating in an empty store with the
default bound 10. -/
theorem session_bound_after_create_witness :
    (((⟨"u", [], 10⟩ : MemoryChatStorage).create "c1" 0 "t" none).1).chats.length ≤ 10 ∧
    (pgUserChats (pgCreate ⟨[], []⟩ "u" 10 "c1" 0 "t" none).1 "u").length ≤ 10 :=
  ⟨session_bound_after_create.1 "u" 10 ⟨"u", [], 10⟩ "c1" 0 "t" none (by decide)
      MemReachable.init,
   session_bound_after_create.2 10 ⟨[], []⟩ "u" "c1" 0 "t" none (by decide)
      PgReachable.init⟩

/-- Deleting an element by its unique key splits the list around exactly that
element and leaves every other element in place. -/
theorem filter_ne_key_of_nodup {α : Type _} (key : α → String) (l : List α) (x : α)
    (hx : x ∈ l) (hnd : l.Pairwise (fun a b => key a ≠ key b)) :
    ∃ pre post, l = pre ++ x :: post ∧
      l.filter (fun c => !(key c == key x)) = pre ++ post := by
  induction l with
  | nil => simp at hx
  | cons y ys ih =>
      rcases List.mem_cons.1 hx with rfl | h
      · refine ⟨[], ys, rfl, ?_⟩
        rw [List.filter_cons_of_neg (by simp)]
        have hall : ∀ a ∈ ys, (!(key a == key x)) = true := by
          intro a ha
          have hne := (List.pairwise_cons.1 hnd).1 a ha
          simp [Ne.symm hne]
        simp only [List.nil_append]
        exact List.filter_eq_self.2 hall
      · obtain ⟨pre, post, hl, hf⟩ := ih h (List.pairwise_cons.1 hnd).2
        have hkey : key y ≠ key x := (List.pairwise_cons.1 hnd).1 x h
        refine ⟨y :: pre, post, by rw [List.cons_append, hl], ?_⟩
        rw [List.filter_cons_of_pos (by simp [hkey]), hf]
        rfl

/-- Inserting a chat with a fresh id appends it. -/
theorem dictInsert_eq_append (l : List ChatModel) (c : ChatModel)
    (h : ∀ d ∈ l, d.id ≠ c.id) : dictInsert l c = l ++ [c] := by
  induction l with
  | nil => rfl
  | cons d rest ih =>
      have hd : (d.id == c.id) = false := by simp [h d (List.mem_cons_self d rest)]
      simp only [dictInsert, hd, Bool.false_eq_true, if_false, List.cons_append]
      rw [ih (fun e he => h e (List.mem_cons_of_mem d he))]

/-- Claim C2: when an owner is exactly at the bound, `create` removes exactly
one existing session — one with the smallest `updated_at` among the owner's
current sessions — before inserting the new one, and every other session is
left untouched in place; first conjunct in-memory, second PostgreSQL. -/
theorem create_at_bound_evicts_exactly_oldest :
    (∀ (s : MemoryChatStorage) (cid : String) (now : Nat) (title : String)
        (aid : Option String), s.chats.length = s.max_chats → 1 ≤ s.max_chats →
        s.chats.Pairwise (fun a b => a.id ≠ b.id) → (∀ d ∈ s.chats, d.id ≠ cid) →
        ∃ victim pre post, s.chats = pre ++ victim :: post ∧
          (∀ c ∈ s.chats, victim.updated_at ≤ c.updated_at) ∧
          ((s.create cid now title aid).1).chats =
            (pre ++ post) ++ [memNewChat s.user_email cid now title aid]) ∧
    (∀ (db : PgDatabase) (maxc : Nat) (email cid : String) (now : Nat) (title : String)
        (aid : Option String), (pgUserChats db email).length = maxc → 1 ≤ maxc →
        db.chats.Pairwise (fun a b => a.id ≠ b.id) →
        ∃ victim pre post, victim.user_email = email ∧ db.chats = pre ++ victim :: post ∧
          (∀ c ∈ pgUserChats db email, victim.updated_at ≤ c.updated_at) ∧
          (pgCreate db email maxc cid now title aid).1.chats =
            (pre ++ post) ++ [pgNewRow email cid now title aid]) := by
  constructor
  · intro s cid now title aid hlen h1 hnd hfresh
    have hne : s.chats ≠ [] := by
      intro he
      rw [he] at hlen
      simp at hlen
      omega
    obtain ⟨oldest, holdest⟩ := firstMinBy_isSome (fun c => c.updated_at) s.chats hne
    have hmem := firstMinBy_mem _ _ _ holdest
    obtain ⟨pre, post, hl, hf⟩ := filter_ne_key_of_nodup ChatModel.id s.chats oldest hmem hnd
    refine ⟨oldest, pre, post, hl, firstMinBy_le _ _ _ holdest, ?_⟩
    simp only [MemoryChatStorage.create]
    rw [if_pos (le_of_eq hlen.symm), holdest]
    dsimp only
    rw [hf]
    exact dictInsert_eq_append _ _ (fun d hd => hfresh d (by
      rw [hl]
      rcases List.mem_append.1 hd with hd1 | hd2
      · exact List.mem_append.2 (Or.inl hd1)
      · exact List.mem_append.2 (Or.inr (List.mem_cons_of_mem _ hd2))))
  · intro db maxc email cid now title aid hcnt h1 hnd
    have hne : pgUserChats db email ≠ [] := by
      intro he
      rw [he] at hcnt
      simp at hcnt
      omega
    obtain ⟨oldest, holdest⟩ := firstMinBy_isSome (fun c => c.updated_at) _ hne
    have hmemf := firstMinBy_mem _ _ _ holdest
    have hmem : oldest ∈ db.chats := (List.mem_filter.1 hmemf).1
    have hqe : oldest.user_email = email := by
      have := (List.mem_filter.1 hmemf).2
      simpa using this
    obtain ⟨pre, post, hl, hf⟩ := filter_ne_key_of_nodup ChatRow.id db.chats oldest hmem hnd
    refine ⟨oldest, pre, post, hqe, hl, firstMinBy_le _ _ _ holdest, ?_⟩
    simp only [pgCreate]
    rw [if_pos (le_of_eq hcnt.symm), holdest]
    dsimp only
    rw [hf]

/-- Witness for C2 at a concrete input: an owner at bound 1 with one session;
creating evicts exactly it. -/
theorem create_at_bound_evicts_exactly_oldest_witness :
    (∃ victim pre post,
      (⟨"u", [⟨"c0", "u", "t", none, 0, 0, []⟩], 1⟩ : MemoryChatStorage).chats =
        pre ++ victim :: post ∧
      (∀ c ∈ (⟨"u", [⟨"c0", "u", "t", none, 0, 0, []⟩], 1⟩ : MemoryChatStorage).chats,
        victim.updated_at ≤ c.updated_at) ∧
      (((⟨"u", [⟨"c0", "u", "t", none, 0, 0, []⟩], 1⟩ : MemoryChatStorage).create
          "c1" 5 "nt" none).1).chats = (pre ++ post) ++ [memNewChat "u" "c1" 5 "nt" none]) ∧
    (∃ victim pre post, victim.user_email = "u" ∧
      (⟨[⟨"c0", "u", "t", none, 0, 0⟩], []⟩ : PgDatabase).chats = pre ++ victim :: post ∧
      (∀ c ∈ pgUserChats (⟨[⟨"c0", "u", "t", none, 0, 0⟩], []⟩ : PgDatabase) "u",
        victim.updated_at ≤ c.updated_at) ∧
      (pgCreate (⟨[⟨"c0", "u", "t", none, 0, 0⟩], []⟩ : PgDatabase) "u" 1 "c1" 5 "nt"
          none).1.chats = (pre ++ post) ++ [pgNewRow "u" "c1" 5 "nt" none]) := by
  constructor
  · exact create_at_bound_evicts_exactly_oldest.1
      ⟨"u", [⟨"c0", "u", "t", none, 0, 0, []⟩], 1⟩ "c1" 5 "nt" none rfl (by decide)
      (by simp) (by
        intro d hd
        rcases List.mem_singleton.1 hd with rfl
        decide)
  · exact create_at_bound_evicts_exactly_oldest.2
      ⟨[⟨"c0", "u", "t", none, 0, 0⟩], []⟩ 1 "u" "c1" 5 "nt" none rfl (by decide) (by simp)

/-- Mapping a function that fixes every element returns the list. -/
theorem map_nochange {α : Type _} (l : List α) (f : α → α) (h : ∀ a ∈ l, f a = a) :
    l.map f = l := by
  induction l with
  | nil => rfl
  | cons a l ih =>
      rw [List.map_cons, h a (List.mem_cons_self a l),
        ih (fun b hb => h b (List.mem_cons_of_mem a hb))]

/-- Mapping a guarded update over a list whose guard holds only at one
distinguished position updates exactly that element. -/
theorem map_guard_segment {α : Type _} (p : α → Bool) (F : α → α) (pre post : List α)
    (c : α) (hpre : ∀ d ∈ pre, p d = false) (hpost : ∀ d ∈ post, p d = false)
    (hc : p c = true) :
    (pre ++ c :: post).map (fun d => if p d then F d else d) = pre ++ F c :: post := by
  rw [List.map_append, List.map_cons]
  rw [map_nochange pre _ (fun d hd => by simp [hpre d hd])]
  rw [map_nochange post _ (fun d hd => by simp [hpost d hd])]
  simp [hc]

/-- Claim C3: on both backends, appending a first message whose role is
`user` to a freshly created session sets the title to the message content
truncated to 50 characters, with the ellipsis marker appended exactly when
the content exceeds 50 characters (last conjunct); appending a second
message bumps `updated_at` but never changes the already-set title; no other
session is touched. -/
theorem first_user_message_sets_title :
    (∀ (s : MemoryChatStorage) (cid : String) (msg : MessageModel) (now : Nat)
        (pre post : List ChatModel) (c : ChatModel),
        s.chats = pre ++ c :: post → (∀ d ∈ pre, d.id ≠ cid) → (∀ d ∈ post, d.id ≠ cid) →
        c.id = cid → c.messages = [] → msg.role = "user" →
        (s.add_message cid msg now).2 = true ∧
        ∃ c2, ((s.add_message cid msg now).1).chats = pre ++ c2 :: post ∧
          c2.title = truncTitle msg.content ∧
          c2.messages = [{ msg with chat_id := cid }] ∧ c2.updated_at = now) ∧
    (∀ (s : MemoryChatStorage) (cid : String) (msg : MessageModel) (now : Nat)
        (pre post : List ChatModel) (c : ChatModel),
        s.chats = pre ++ c :: post → (∀ d ∈ pre, d.id ≠ cid) → (∀ d ∈ post, d.id ≠ cid) →
        c.id = cid → c.messages.length = 1 →
        (s.add_message cid msg now).2 = true ∧
        ∃ c2, ((s.add_message cid msg now).1).chats = pre ++ c2 :: post ∧
          c2.title = c.title ∧
          c2.messages = c.messages ++ [{ msg with chat_id := cid }] ∧ c2.updated_at = now) ∧
    (∀ (db : PgDatabase) (email cid : String) (msg : MessageRow) (now : Nat)
        (pre post : List ChatRow) (ch : ChatRow),
        db.chats = pre ++ ch :: post → (∀ d ∈ pre, d.id ≠ cid) → (∀ d ∈ post, d.id ≠ cid) →
        ch.id = cid → ch.user_email = email → (∀ m ∈ db.messages, m.chat_id ≠ cid) →
        msg.role = "user" →
        (pgAddMessage db email cid msg now).2 = true ∧
        ∃ ch2, (pgAddMessage db email cid msg now).1.chats = pre ++ ch2 :: post ∧
          ch2.title = truncTitle msg.content ∧ ch2.updated_at = now ∧
          (pgAddMessage db email cid msg now).1.messages =
            db.messages ++ [{ msg with chat_id := cid }]) ∧
    (∀ (db : PgDatabase) (email cid : String) (msg : MessageRow) (now : Nat)
        (pre post : List ChatRow) (ch : ChatRow),
        db.chats = pre ++ ch :: post → (∀ d ∈ pre, d.id ≠ cid) → (∀ d ∈ post, d.id ≠ cid) →
        ch.id = cid → ch.user_email = email →
        (db.messages.filter (fun m => m.chat_id == cid)).length = 1 →
        (pgAddMessage db email cid msg now).2 = true ∧
        ∃ ch2, (pgAddMessage db email cid msg now).1.chats = pre ++ ch2 :: post ∧
          ch2.title = ch.title ∧ ch2.updated_at = now) ∧
    (∀ content : String,
      (content.data.length ≤ 50 → truncTitle content = content) ∧
      (50 < content.data.length →
        truncTitle content = String.mk (content.data.take 50) ++ "...")) := by
  refine ⟨?_, ?_, ?_, ?_, ?_⟩
  · intro s cid msg now pre post c hchats hpre hpost hid hfirst hrole
    have hany : (s.chats.any (fun d => d.id == cid)) = true := by
      rw [hchats]
      exact List.any_eq_true.2 ⟨c, List.mem_append.2 (Or.inr (List.mem_cons_self _ _)),
        by simp [hid]⟩
    constructor
    · simp only [MemoryChatStorage.add_message, hany, if_true]
    · simp only [MemoryChatStorage.add_message, hany, if_true]
      rw [hchats, map_guard_segment (fun d : ChatModel => d.id == cid) _ pre post c
        (fun d hd => by simp [hpre d hd]) (fun d hd => by simp [hpost d hd])
        (by simp [hid])]
      refine ⟨_, rfl, ?_, ?_, ?_⟩ <;> simp [hfirst, hrole]
  · intro s cid msg now pre post c hchats hpre hpost hid hsecond
    have hany : (s.chats.any (fun d => d.id == cid)) = true := by
      rw [hchats]
      exact List.any_eq_true.2 ⟨c, List.mem_append.2 (Or.inr (List.mem_cons_self _ _)),
        by simp [hid]⟩
    constructor
    · simp only [MemoryChatStorage.add_message, hany, if_true]
    · simp only [MemoryChatStorage.add_message, hany, if_true]
      rw [hchats, map_guard_segment (fun d : ChatModel => d.id == cid) _ pre post c
        (fun d hd => by simp [hpre d hd]) (fun d hd => by simp [hpost d hd])
        (by simp [hid])]
      have h2 : (c.messages ++ [{ msg with chat_id := cid }]).length = 2 := by
        simp [hsecond]
      refine ⟨_, rfl, ?_, ?_, ?_⟩ <;> simp [h2]
  · intro db email cid msg now pre post ch hchats hpre hpost hid hemail hnomsg hrole
    have hfilter : db.chats.filter (fun c => c.id == cid && c.user_email == email) = [ch] := by
      rw [hchats, List.filter_append,
        List.filter_eq_nil_iff.2 (fun d hd => by simp [hpre d hd]),
        List.filter_cons_of_pos (by simp [hid, hemail]),
        List.filter_eq_nil_iff.2 (fun d hd => by simp [hpost d hd])]
      rfl
    have hcnt : db.messages.filter (fun m => m.chat_id == cid) = [] :=
      List.filter_eq_nil_iff.2 (fun m hm => by simp [hnomsg m hm])
    constructor
    · simp only [pgAddMessage, hfilter, List.head?]
    · simp only [pgAddMessage, hfilter, List.head?]
      rw [hcnt]
      rw [hchats, map_guard_segment (fun c : ChatRow => c.id == ch.id && c.user_email == email)
        _ pre post ch
        (fun d hd => by
          have hdne : d.id ≠ ch.id := by rw [hid]; exact hpre d hd
          simp [hdne])
        (fun d hd => by
          have hdne : d.id ≠ ch.id := by rw [hid]; exact hpost d hd
          simp [hdne])
        (by simp [hemail])]
      refine ⟨_, rfl, ?_, ?_, ?_⟩ <;> simp [hrole]
  · intro db email cid msg now pre post ch hchats hpre hpost hid hemail hone
    have hfilter : db.chats.filter (fun c => c.id == cid && c.user_email == email) = [ch] := by
      rw [hchats, List.filter_append,
        List.filter_eq_nil_iff.2 (fun d hd => by simp [hpre d hd]),
        List.filter_cons_of_pos (by simp [hid, hemail]),
        List.filter_eq_nil_iff.2 (fun d hd => by simp [hpost d hd])]
      rfl
    have hcnt : ((db.messages.filter (fun m => m.chat_id == cid)).length == 0) = false := by
      simp [hone]
    constructor
    · simp only [pgAddMessage, hfilter, List.head?]
    · simp only [pgAddMessage, hfilter, List.head?]
      rw [hchats, map_guard_segment (fun c : ChatRow => c.id == ch.id && c.user_email == email)
        _ pre post ch
        (fun d hd => by
          have hdne : d.id ≠ ch.id := by rw [hid]; exact hpre d hd
          simp [hdne])
        (fun d hd => by
          have hdne : d.id ≠ ch.id := by rw [hid]; exact hpost d hd
          simp [hdne])
        (by simp [hemail])]
      refine ⟨_, rfl, ?_, ?_⟩ <;> simp [hcnt]
  · intro content
    constructor
    · intro hle
      simp only [truncTitle, Nat.not_lt.2 hle, if_false]
      rw [List.take_of_length_le hle]
      cases content with
      | mk data => simp [String.mk]
    · intro hgt
      simp only [truncTitle, hgt, if_true]

/-- Witness for C3 at concrete inputs: a fresh session titled by its first
user message, a session with one prior message keeping its title, on both
backends, and the no-ellipsis case of the truncation. -/
theorem first_user_message_sets_title_witness :
    (((⟨"u", [sampleFreshChat], 10⟩ : MemoryChatStorage).add_message "c1" sampleMsg 1).2 =
        true ∧
      ∃ c2, (((⟨"u", [sampleFreshChat], 10⟩ : MemoryChatStorage).add_message "c1" sampleMsg
          1).1).chats = [] ++ c2 :: [] ∧
        c2.title = truncTitle sampleMsg.content ∧
        c2.messages = [{ sampleMsg with chat_id := "c1" }] ∧ c2.updated_at = 1) ∧
    (((⟨"u", [sampleSeededChat], 10⟩ : MemoryChatStorage).add_message "c1" sampleMsg 1).2 =
        true ∧
      ∃ c2, (((⟨"u", [sampleSeededChat], 10⟩ : MemoryChatStorage).add_message "c1" sampleMsg
          1).1).chats = [] ++ c2 :: [] ∧
        c2.title = sampleSeededChat.title ∧
        c2.messages = sampleSeededChat.messages ++ [{ sampleMsg with chat_id := "c1" }] ∧
        c2.updated_at = 1) ∧
    ((pgAddMessage ⟨[sampleFreshRow], []⟩ "u" "c1" sampleMsgRow 1).2 = true ∧
      ∃ ch2, (pgAddMessage ⟨[sampleFreshRow], []⟩ "u" "c1" sampleMsgRow 1).1.chats =
          [] ++ ch2 :: [] ∧
        ch2.title = truncTitle sampleMsgRow.content ∧ ch2.updated_at = 1 ∧
        (pgAddMessage ⟨[sampleFreshRow], []⟩ "u" "c1" sampleMsgRow 1).1.messages =
          ([] : List MessageRow) ++ [{ sampleMsgRow with chat_id := "c1" }]) ∧
    ((pgAddMessage ⟨[sampleSeededRow], [⟨"m0", "c1", "user", "hi", 0, none, none⟩]⟩ "u" "c1"
        sampleMsgRow 1).2 = true ∧
      ∃ ch2, (pgAddMessage ⟨[sampleSeededRow], [⟨"m0", "c1", "user", "hi", 0, none, none⟩]⟩
          "u" "c1" sampleMsgRow 1).1.chats = [] ++ ch2 :: [] ∧
        ch2.title = sampleSeededRow.title ∧ ch2.updated_at = 1) ∧
    truncTitle "hello" = "hello" := by
  refine ⟨?_, ?_, ?_, ?_, ?_⟩
  · exact first_user_message_sets_title.1 ⟨"u", [sampleFreshChat], 10⟩ "c1" sampleMsg 1 [] []
      sampleFreshChat rfl (by simp) (by simp) rfl rfl rfl
  · exact first_user_message_sets_title.2.1 ⟨"u", [sampleSeededChat], 10⟩ "c1" sampleMsg 1
      [] [] sampleSeededChat rfl (by simp) (by simp) rfl rfl
  · exact first_user_message_sets_title.2.2.1 ⟨[sampleFreshRow], []⟩ "u" "c1" sampleMsgRow 1
      [] [] sampleFreshRow rfl (by simp) (by simp) rfl rfl (by simp) rfl
  · exact first_user_message_sets_title.2.2.2.1
      ⟨[sampleSeededRow], [⟨"m0", "c1", "user", "hi", 0, none, none⟩]⟩ "u" "c1" sampleMsgRow
      1 [] [] sampleSeededRow rfl (by simp) (by simp) rfl rfl rfl
  · exact (first_user_message_sets_title.2.2.2.2 "hello").1 (by decide)

/-- Every transition of the cache system preserves per-key well-formedness:
the flag-guarded scheduling in `_get_from_cache` admits at most one running
refresh, refresh completion and failure both release it, and cold fetches
cannot start once the key is populated. -/
theorem cacheStep_wf (st : CacheState) (key : String) (ev : CacheEvent)
    (h : CacheKeyWF st key) : CacheKeyWF (cacheStep st ev) key := by
  obtain ⟨hpc, e, hlook, hinf⟩ := h
  cases ev with
  | lookup k now =>
      simp only [cacheStep, getFromCache]
      cases hlk : st.entries.lookup k with
      | none => exact ⟨hpc, e, hlook, hinf⟩
      | some entry =>
          dsimp only
          by_cases hfresh : now - entry.timestamp < CACHE_TTL_SECONDS
          · rw [if_pos hfresh]
            exact ⟨hpc, e, hlook, hinf⟩
          · rw [if_neg hfresh]
            cases hr : entry.refreshing with
            | true =>
                rw [if_pos rfl]
                exact ⟨hpc, e, hlook, hinf⟩
            | false =>
                rw [if_neg (by simp [hr])]
                by_cases hk : k = key
                · subst hk
                  have hee : e = entry := by
                    rw [hlook] at hlk
                    exact Option.some.inj hlk
                  refine ⟨hpc, { entry with refreshing := true },
                    lookup_entriesInsert_self _ _ _, ?_⟩
                  have hz : st.inflight k = 0 := by
                    rw [hinf, hee, hr]
                    rfl
                  simp [hz]
                · refine ⟨hpc, e, ?_, ?_⟩
                  · exact (lookup_entriesInsert_other _ _ _ _
                      (fun he => hk he.symm)).trans hlook
                  · have hkk : (key == k) = false := by
                      simp only [beq_eq_false_iff_ne]
                      exact fun he => hk he.symm
                    simp [hkk, hinf]
  | refreshOk k data now =>
      simp only [cacheStep]
      by_cases hz : st.inflight k = 0
      · rw [if_pos hz]
        exact ⟨hpc, e, hlook, hinf⟩
      · rw [if_neg hz]
        by_cases hk : k = key
        · subst hk
          have hr : e.refreshing = true := by
            cases hre : e.refreshing
            · rw [hre] at hinf
              simp at hinf
              exact absurd hinf hz
            · rfl
          refine ⟨hpc, ⟨data, now, false⟩, ?_, ?_⟩
          · exact lookup_entriesInsert_self _ _ _
          · simp [setCache, decrAt, hinf, hr]
        · have hkk : (key == k) = false := by
            simp only [beq_eq_false_iff_ne]
            exact fun he => hk he.symm
          refine ⟨hpc, e, ?_, ?_⟩
          · exact (lookup_entriesInsert_other _ _ _ _
              (fun he => hk he.symm)).trans hlook
          · simp [setCache, decrAt, hkk, hinf]
  | refreshFail k =>
      simp only [cacheStep]
      by_cases hz : st.inflight k = 0
      · rw [if_pos hz]
        exact ⟨hpc, e, hlook, hinf⟩
      · rw [if_neg hz]
        by_cases hk : k = key
        · subst hk
          have hr : e.refreshing = true := by
            cases hre : e.refreshing
            · rw [hre] at hinf
              simp at hinf
              exact absurd hinf hz
            · rfl
          simp only [clearRefreshing, hlook]
          refine ⟨hpc, { e with refreshing := false },
            lookup_entriesInsert_self _ _ _, ?_⟩
          simp [decrAt, hinf, hr]
        · have hkk : (key == k) = false := by
            simp only [beq_eq_false_iff_ne]
            exact fun he => hk he.symm
          simp only [clearRefreshing]
          cases hlk : st.entries.lookup k with
          | none => exact ⟨hpc, e, hlook, by simp [decrAt, hkk, hinf]⟩
          | some entry =>
              refine ⟨hpc, e, ?_, ?_⟩
              · exact (lookup_entriesInsert_other _ _ _ _
              (fun he => hk he.symm)).trans hlook
              · simp [decrAt, hkk, hinf]
  | coldBegin k =>
      simp only [cacheStep]
      by_cases hk : k = key
      · subst hk
        rw [if_neg (by rw [hlook]; simp)]
        exact ⟨hpc, e, hlook, hinf⟩
      · have hkk : (key == k) = false := by
          simp only [beq_eq_false_iff_ne]
          exact fun he => hk he.symm
        split
        · exact ⟨by simp [hkk, hpc], e, hlook, hinf⟩
        · exact ⟨hpc, e, hlook, hinf⟩
  | coldDone k data now =>
      simp only [cacheStep]
      by_cases hk : k = key
      · subst hk
        rw [if_pos hpc]
        exact ⟨hpc, e, hlook, hinf⟩
      · have hkk : (key == k) = false := by
          simp only [beq_eq_false_iff_ne]
          exact fun he => hk he.symm
        by_cases hz : st.pendingCold k = 0
        · rw [if_pos hz]
          exact ⟨hpc, e, hlook, hinf⟩
        · rw [if_neg hz]
          refine ⟨by simp [setCache, decrAt, hkk, hpc], e, ?_, ?_⟩
          · exact (lookup_entriesInsert_other _ _ _ _
              (fun he => hk he.symm)).trans hlook
          · simp [setCache, hinf]

/-- Per-key well-formedness is preserved along any run. -/
theorem cacheRun_wf (st : CacheState) (key : String) (evs : List CacheEvent)
    (h : CacheKeyWF st key) : CacheKeyWF (cacheRun st evs) key := by
  induction evs generalizing st with
  | nil => exact h
  | cons ev evs ih => exact ih _ (cacheStep_wf st key ev h)

/-- Claim C8: (first part) a lookup on a key whose entry is older than the
TTL (300 seconds) returns the previously cached payload at once, with no
invocation of the fetch function, and the stored payload and fetch time
survive the lookup; (second part) starting from any well-formed populated
key, every interleaving of concurrent lookups, refresh completions, refresh
failures and cold fetches keeps at most one background refresh in flight for
that key; (third part) a failing background refresh clears only the
refreshing flag — payload and timestamp stay stored, so later stale lookups
can still return them. -/
theorem stale_cache_returns_and_single_flight :
    (∀ (st : CacheState) (key : String) (now : Nat) (fetched : Json) (e : CacheEntry),
      st.entries.lookup key = some e → CACHE_TTL_SECONDS ≤ now - e.timestamp →
      asyncGetAgentDetails st key now fetched = (e.data, (getFromCache st key now).2, 0) ∧
      ∃ e2, ((getFromCache st key now).2).entries.lookup key = some e2 ∧
        e2.data = e.data ∧ e2.timestamp = e.timestamp) ∧
    (∀ (st : CacheState) (key : String) (evs : List CacheEvent),
      CacheKeyWF st key → (cacheRun st evs).inflight key ≤ 1) ∧
    (∀ (st : CacheState) (key : String) (e : CacheEntry),
      st.entries.lookup key = some e → st.inflight key ≠ 0 →
      (cacheStep st (CacheEvent.refreshFail key)).entries.lookup key =
        some { e with refreshing := false }) := by
  refine ⟨?_, ?_, ?_⟩
  · intro st key now fetched e hlook hstale
    have hnlt : ¬(now - e.timestamp < CACHE_TTL_SECONDS) := Nat.not_lt.2 hstale
    cases hr : e.refreshing with
    | true =>
        have hget : getFromCache st key now = (some e.data, st) := by
          simp only [getFromCache, hlook]
          rw [if_neg hnlt, if_pos hr]
        rw [hget]
        exact ⟨by simp [asyncGetAgentDetails, hget], e, hlook, rfl, rfl⟩
    | false =>
        have hget : getFromCache st key now = (some e.data,
            { st with
                entries := entriesInsert st.entries key { e with refreshing := true },
                inflight := fun k => if k == key then st.inflight k + 1
                  else st.inflight k }) := by
          simp only [getFromCache, hlook]
          rw [if_neg hnlt, if_neg (by simp [hr])]
        rw [hget]
        refine ⟨by simp [asyncGetAgentDetails, hget], { e with refreshing := true }, ?_, rfl,
          rfl⟩
        exact lookup_entriesInsert_self _ _ _
  · intro st key evs h
    obtain ⟨hpc, e, hlook, hinf⟩ := cacheRun_wf st key evs h
    rw [hinf]
    cases e.refreshing <;> simp
  · intro st key e hlook hnz
    simp only [cacheStep]
    rw [if_neg hnz]
    simp only [clearRefreshing, hlook]
    exact lookup_entriesInsert_self _ _ _

/-- Witness for C8 at concrete inputs: a key populated at time 0 and looked
up at time 300 (stale), a three-event concurrent run, and a failing refresh
on a marked key. -/
theorem stale_cache_returns_and_single_flight_witness :
    (asyncGetAgentDetails ⟨[("k", ⟨Json.str "v", 0, false⟩)], fun _ => 0, fun _ => 0⟩ "k" 300
        (Json.str "w") =
      (Json.str "v",
        (getFromCache ⟨[("k", ⟨Json.str "v", 0, false⟩)], fun _ => 0, fun _ => 0⟩ "k" 300).2,
        0) ∧
      ∃ e2, ((getFromCache ⟨[("k", ⟨Json.str "v", 0, false⟩)], fun _ => 0, fun _ => 0⟩ "k"
          300).2).entries.lookup "k" = some e2 ∧
        e2.data = Json.str "v" ∧ e2.timestamp = 0) ∧
    (cacheRun ⟨[("k", ⟨Json.str "v", 0, false⟩)], fun _ => 0, fun _ => 0⟩
        [CacheEvent.lookup "k" 300, CacheEvent.lookup "k" 301,
         CacheEvent.refreshFail "k"]).inflight "k" ≤ 1 ∧
    (cacheStep ⟨[("k", ⟨Json.str "v", 5, true⟩)], fun _ => 1, fun _ => 0⟩
        (CacheEvent.refreshFail "k")).entries.lookup "k" =
      some ⟨Json.str "v", 5, false⟩ := by
  refine ⟨?_, ?_, ?_⟩
  · exact stale_cache_returns_and_single_flight.1
      ⟨[("k", ⟨Json.str "v", 0, false⟩)], fun _ => 0, fun _ => 0⟩ "k" 300 (Json.str "w")
      ⟨Json.str "v", 0, false⟩ rfl (by decide)
  · exact stale_cache_returns_and_single_flight.2.1
      ⟨[("k", ⟨Json.str "v", 0, false⟩)], fun _ => 0, fun _ => 0⟩ "k"
      [CacheEvent.lookup "k" 300, CacheEvent.lookup "k" 301, CacheEvent.refreshFail "k"]
      ⟨rfl, ⟨Json.str "v", 0, false⟩, rfl, rfl⟩
  · exact stale_cache_returns_and_single_flight.2.2
      ⟨[("k", ⟨Json.str "v", 5, true⟩)], fun _ => 1, fun _ => 0⟩ "k" ⟨Json.str "v", 5, true⟩
      rfl (by decide)
